import Mathlib

set_option maxRecDepth 4000

/-!
Verification development for the prompt2figma backend
(`app/core/state_store.py`, `app/core/version_manager.py`,
`app/core/session_manager.py`, `app/core/context_engine.py`).

The Python code is embedded shallowly:

* JSON documents (`wireframe_json`, metadata dictionaries) become the
  inductive type `JVal`; Python dictionaries are association lists with
  Python dict semantics (first occurrence of a key is authoritative,
  assignment updates in place, new keys append at the end).  JSON numbers
  are modelled as integers, which covers every document the claims touch.
* `json.dumps` (with its default separators, `ensure_ascii=True`, and the
  `sort_keys` flag) is implemented character for character; SHA-256 is
  implemented from FIPS 180-4 over byte lists as `Nat`s reduced mod 2^32,
  so content hashes are computed, not axiomatised.
* The Redis keyspace of one session is a record `Store`; every store /
  manager operation is a pure function on it.  Timestamps are `Nat`s.
* The context engine's `re` patterns are embedded as a small regular
  expression AST with an executable backtracking matcher.
-/

/-! ## JSON values -/

/-- A JSON value (Python dict / list / str / int / bool / None).  Numeric
values are modelled as integers; the backend documents in scope never carry
floats. -/
inductive JVal where
  | null
  | bool (b : Bool)
  | num (n : Int)
  | str (s : String)
  | arr (elems : List JVal)
  | obj (fields : List (String × JVal))
deriving Repr

/-- Python dict lookup (`d.get(k)`): first binding of the key wins. -/
def dget (fs : List (String × JVal)) (k : String) : Option JVal :=
  match fs with
  | [] => none
  | (k2, v) :: rest => if k2 = k then some v else dget rest k

/-- Python dict assignment (`d[k] = v`): overwrite the first binding in
place, or append a fresh binding at the end. -/
def dset (fs : List (String × JVal)) (k : String) (v : JVal) : List (String × JVal) :=
  match fs with
  | [] => [(k, v)]
  | (k2, v2) :: rest => if k2 = k then (k, v) :: rest else (k2, v2) :: dset rest k v

/-- `k in d` for a Python dict. -/
def dmem (fs : List (String × JVal)) (k : String) : Bool :=
  (dget fs k).isSome

/-! ## Decidable equality and Python equality on `JVal` -/

mutual
/-- Structural equality on JSON values (the nested inductive defeats
`deriving`; the mutual structural recursion keeps it kernel-reducible). -/
def jvBeq : JVal → JVal → Bool
  | .null, .null => true
  | .bool a, .bool b => a = b
  | .num a, .num b => a = b
  | .str a, .str b => a = b
  | .arr xs, .arr ys => jvBeqList xs ys
  | .obj fs, .obj gs => jvBeqFields fs gs
  | _, _ => false

def jvBeqList : List JVal → List JVal → Bool
  | [], [] => true
  | x :: xs, y :: ys => jvBeq x y && jvBeqList xs ys
  | _, _ => false

def jvBeqFields : List (String × JVal) → List (String × JVal) → Bool
  | [], [] => true
  | (k1, v1) :: fs, (k2, v2) :: gs => k1 = k2 && jvBeq v1 v2 && jvBeqFields fs gs
  | _, _ => false
end

mutual
theorem jvBeq_iff : ∀ (a b : JVal), jvBeq a b = true ↔ a = b
  | .null, .null => by simp [jvBeq]
  | .bool a, .bool b => by simp [jvBeq]
  | .num a, .num b => by simp [jvBeq]
  | .str a, .str b => by simp [jvBeq]
  | .arr xs, .arr ys => by simp [jvBeq, jvBeqList_iff xs ys]
  | .obj fs, .obj gs => by simp [jvBeq, jvBeqFields_iff fs gs]
  | .null, .bool _ | .null, .num _ | .null, .str _ | .null, .arr _ | .null, .obj _
  | .bool _, .null | .bool _, .num _ | .bool _, .str _ | .bool _, .arr _ | .bool _, .obj _
  | .num _, .null | .num _, .bool _ | .num _, .str _ | .num _, .arr _ | .num _, .obj _
  | .str _, .null | .str _, .bool _ | .str _, .num _ | .str _, .arr _ | .str _, .obj _
  | .arr _, .null | .arr _, .bool _ | .arr _, .num _ | .arr _, .str _ | .arr _, .obj _
  | .obj _, .null | .obj _, .bool _ | .obj _, .num _ | .obj _, .str _ | .obj _, .arr _ => by
    simp [jvBeq]

theorem jvBeqList_iff : ∀ (xs ys : List JVal), jvBeqList xs ys = true ↔ xs = ys
  | [], [] => by simp [jvBeqList]
  | [], _ :: _ => by simp [jvBeqList]
  | _ :: _, [] => by simp [jvBeqList]
  | x :: xs, y :: ys => by
    simp [jvBeqList, jvBeq_iff x y, jvBeqList_iff xs ys]

theorem jvBeqFields_iff : ∀ (fs gs : List (String × JVal)), jvBeqFields fs gs = true ↔ fs = gs
  | [], [] => by simp [jvBeqFields]
  | [], _ :: _ => by simp [jvBeqFields]
  | _ :: _, [] => by simp [jvBeqFields]
  | (k1, v1) :: fs, (k2, v2) :: gs => by
    simp [jvBeqFields, jvBeq_iff v1 v2, jvBeqFields_iff fs gs, and_assoc]
end

instance : DecidableEq JVal := fun a b => decidable_of_iff _ (jvBeq_iff a b)



/-! ## Python `json.dumps`

`json.dumps(obj, sort_keys=...)` with the default `ensure_ascii=True` and
default separators `(", ", ": ")`; the compact separators `(",", ":")` are
also provided for the spec-side canonical serialization. -/

/-- Lower-case hex digit. -/
def hexDigit (n : Nat) : Char :=
  if n < 10 then Char.ofNat (48 + n) else Char.ofNat (87 + n)

/-- Four lower-case hex digits (for `\uXXXX` escapes and hash digests). -/
def hex4 (n : Nat) : String :=
  String.mk [hexDigit ((n / 4096) % 16), hexDigit ((n / 256) % 16),
             hexDigit ((n / 16) % 16), hexDigit (n % 16)]

/-- `\uXXXX` escape of one code point, with a surrogate pair above U+FFFF,
exactly as CPython's `py_encode_basestring_ascii` emits it. -/
def escUnicode (n : Nat) : String :=
  if n < 65536 then "\\u" ++ hex4 n
  else
    let m := n - 65536
    "\\u" ++ hex4 (55296 + m / 1024) ++ "\\u" ++ hex4 (56320 + m % 1024)

/-- Escape one character the way `json.dumps` (`ensure_ascii=True`) does:
printable ASCII passes through, the two-character escapes cover
quote, backslash and the C0 controls with short names, everything else
becomes `\uXXXX`. -/
def escChar (c : Char) : String :=
  let n := c.toNat
  if n = 34 then "\\\""
  else if n = 92 then "\\\\"
  else if n = 10 then "\\n"
  else if n = 13 then "\\r"
  else if n = 9 then "\\t"
  else if n = 8 then "\\b"
  else if n = 12 then "\\f"
  else if n < 32 || 126 < n then escUnicode n
  else String.singleton c

/-- JSON string literal. -/
def jstr (s : String) : String :=
  "\"" ++ (s.data.foldr (fun c acc => escChar c ++ acc) "") ++ "\""

/-- Code-point lexicographic order on strings — Python's `<` on `str`. -/
def charsLt : List Char → List Char → Bool
  | [], [] => false
  | [], _ :: _ => true
  | _ :: _, [] => false
  | a :: as, b :: bs => a.toNat < b.toNat || (a = b && charsLt as bs)

def strLtB (a b : String) : Bool := charsLt a.data b.data

/-- Insert into a list of (key, rendered-field) pairs, keeping it sorted by
key (Python `sorted` on dict items; dict keys are unique, so stability is
moot). -/
def insertByKey (p : String × String) : List (String × String) → List (String × String)
  | [] => [p]
  | q :: rest => if strLtB q.1 p.1 then q :: insertByKey p rest else p :: q :: rest

def sortByKey (ps : List (String × String)) : List (String × String) :=
  ps.foldl (fun acc p => insertByKey p acc) []

def joinSep (sep : String) : List String → String
  | [] => ""
  | [x] => x
  | x :: xs => x ++ sep ++ joinSep sep xs

mutual
/-- `json.dumps` body: `sk` is `sort_keys`, `isep`/`ksep` the item / key
separators.  A field's rendering does not depend on its siblings, so an
object is rendered by rendering each field and then ordering the rendered
fields, which is observably the same as CPython's order-then-render. -/
def dumpJ (sk : Bool) (isep ksep : String) : JVal → String
  | .null => "null"
  | .bool b => if b then "true" else "false"
  | .num n => toString n
  | .str s => jstr s
  | .arr xs => "[" ++ joinSep isep (dumpArr sk isep ksep xs) ++ "]"
  | .obj fs =>
    let pairs := dumpFields sk isep ksep fs
    let ordered := if sk then sortByKey pairs else pairs
    "\x7b" ++ joinSep isep (ordered.map (fun kv => kv.2)) ++ "\x7d"

def dumpArr (sk : Bool) (isep ksep : String) : List JVal → List String
  | [] => []
  | x :: xs => dumpJ sk isep ksep x :: dumpArr sk isep ksep xs

def dumpFields (sk : Bool) (isep ksep : String) : List (String × JVal) → List (String × String)
  | [] => []
  | (k, v) :: fs => (k, jstr k ++ ksep ++ dumpJ sk isep ksep v) :: dumpFields sk isep ksep fs
end

/-- `json.dumps(v, sort_keys=True)` — the serialization
`VersionManager._calculate_content_hash` feeds to SHA-256.  Note the
CPython default separators `", "` and `": "` keep a space after every
comma and colon. -/
def pyDumpsSorted (v : JVal) : String := dumpJ true ", " ": " v

/-- `json.dumps(v)` — insertion order, default separators (used for the
`original_size` bookkeeping during compression). -/
def pyDumpsPlain (v : JVal) : String := dumpJ false ", " ": " v

/-- Modelled from the spec: the canonical serialization the spec describes —
keys sorted lexicographically at every depth and *no insignificant
whitespace* (compact separators).  This is the spec-side reference point
for the content-hash claims; the code does not implement it. -/
def specCanonicalJson (v : JVal) : String := dumpJ true "," ":" v

/-! ## UTF-8 and SHA-256 (FIPS 180-4)

Bytes and 32-bit words are `Nat`s; every word-level operation reduces
mod `2^32 = 4294967296`. -/

/-- UTF-8 encoding of one code point. -/
def charUtf8 (c : Char) : List Nat :=
  let n := c.toNat
  if n < 128 then [n]
  else if n < 2048 then [192 + n / 64, 128 + n % 64]
  else if n < 65536 then [224 + n / 4096, 128 + (n / 64) % 64, 128 + n % 64]
  else [240 + n / 262144, 128 + (n / 4096) % 64, 128 + (n / 64) % 64, 128 + n % 64]

/-- UTF-8 bytes of a string (`str.encode()`). -/
def utf8Bytes (s : String) : List Nat :=
  s.data.foldr (fun c acc => charUtf8 c ++ acc) []

def w32 (n : Nat) : Nat := n % 4294967296

def add32 (a b : Nat) : Nat := (a + b) % 4294967296

def rotr32 (n x : Nat) : Nat := w32 ((x >>> n) ||| (x <<< (32 - n)))

def xor3 (a b c : Nat) : Nat := (a ^^^ b) ^^^ c

def ch32 (x y z : Nat) : Nat := (x &&& y) ^^^ ((x ^^^ 4294967295) &&& z)

def maj32 (x y z : Nat) : Nat := ((x &&& y) ^^^ (x &&& z)) ^^^ (y &&& z)

def bigSigma0 (x : Nat) : Nat := xor3 (rotr32 2 x) (rotr32 13 x) (rotr32 22 x)

def bigSigma1 (x : Nat) : Nat := xor3 (rotr32 6 x) (rotr32 11 x) (rotr32 25 x)

def smallSigma0 (x : Nat) : Nat := xor3 (rotr32 7 x) (rotr32 18 x) (x >>> 3)

def smallSigma1 (x : Nat) : Nat := xor3 (rotr32 17 x) (rotr32 19 x) (x >>> 10)

/-- The 64 SHA-256 round constants (fractional parts of cube roots of the
first 64 primes). -/
def shaRoundK : List Nat :=
  [1116352408, 1899447441, 3049323471, 3921009573,
   961987163, 1508970993, 2453635748, 2870763221,
   3624381080, 310598401, 607225278, 1426881987,
   1925078388, 2162078206, 2614888103, 3248222580,
   3835390401, 4022224774, 264347078, 604807628,
   770255983, 1249150122, 1555081692, 1996064986,
   2554220882, 2821834349, 2952996808, 3210313671,
   3336571891, 3584528711, 113926993, 338241895,
   666307205, 773529912, 1294757372, 1396182291,
   1695183700, 1986661051, 2177026350, 2456956037,
   2730485921, 2820302411, 3259730800, 3345764771,
   3516065817, 3600352804, 4094571909, 275423344,
   430227734, 506948616, 659060556, 883997877,
   958139571, 1322822218, 1537002063, 1747873779,
   1955562222, 2024104815, 2227730452, 2361852424,
   2428436474, 2756734187, 3204031479, 3329325298]

/-- Working state / chaining value: eight 32-bit words. -/
structure Sha8 where
  sa : Nat
  sb : Nat
  sc : Nat
  sd : Nat
  se : Nat
  sf : Nat
  sg : Nat
  sh : Nat
deriving Repr, DecidableEq

/-- Initial hash value H(0). -/
def sha8Init : Sha8 :=
  ⟨1779033703, 3144134277, 1013904242, 2773480762,
   1359893119, 2600822924, 528734635, 1541459225⟩

/-- Big-endian 8-byte encoding of the bit length. -/
def be64 (n : Nat) : List Nat :=
  [(n >>> 56) % 256, (n >>> 48) % 256, (n >>> 40) % 256, (n >>> 32) % 256,
   (n >>> 24) % 256, (n >>> 16) % 256, (n >>> 8) % 256, n % 256]

/-- Merkle–Damgård padding: `0x80`, zeros to 56 mod 64, 64-bit bit length. -/
def shaPad (msg : List Nat) : List Nat :=
  let l := msg.length
  let zeros := (64 + 55 - (l % 64)) % 64
  msg ++ 128 :: List.replicate zeros 0 ++ be64 (8 * l)

/-- Big-endian 32-bit words of a byte list. -/
def bytesToWords : List Nat → List Nat
  | b0 :: b1 :: b2 :: b3 :: rest =>
    (((b0 * 256 + b1) * 256 + b2) * 256 + b3) :: bytesToWords rest
  | _ => []

/-- Extend the 16-word block to the 64-word message schedule. -/
def extendSchedule : Nat → List Nat → List Nat
  | 0, w => w
  | n + 1, w =>
    let t := w.length
    let fresh := add32 (add32 (smallSigma1 (w.getD (t - 2) 0)) (w.getD (t - 7) 0))
                       (add32 (smallSigma0 (w.getD (t - 15) 0)) (w.getD (t - 16) 0))
    extendSchedule n (w ++ [fresh])

/-- One SHA-256 round: consume a (round constant, schedule word) pair. -/
def shaRound (st : Sha8) (kw : Nat × Nat) : Sha8 :=
  let t1 := add32 st.sh (add32 (bigSigma1 st.se)
              (add32 (ch32 st.se st.sf st.sg) (add32 kw.1 kw.2)))
  let t2 := add32 (bigSigma0 st.sa) (maj32 st.sa st.sb st.sc)
  ⟨add32 t1 t2, st.sa, st.sb, st.sc, add32 st.sd t1, st.se, st.sf, st.sg⟩

/-- Compression function on one 64-byte block. -/
def shaCompress (st : Sha8) (block : List Nat) : Sha8 :=
  let ws := extendSchedule 48 (bytesToWords block)
  let fin := (shaRoundK.zip ws).foldl shaRound st
  ⟨add32 st.sa fin.sa, add32 st.sb fin.sb, add32 st.sc fin.sc, add32 st.sd fin.sd,
   add32 st.se fin.se, add32 st.sf fin.sf, add32 st.sg fin.sg, add32 st.sh fin.sh⟩

/-- 64-byte chunks of a (padded) message, with a fuel argument so the
recursion is structural (fuel = list length always suffices, since each
step drops at least one element). -/
def chunks64F : Nat → List Nat → List (List Nat)
  | 0, _ => []
  | _ + 1, [] => []
  | fuel + 1, x :: xs => (x :: xs).take 64 :: chunks64F fuel ((x :: xs).drop 64)

def chunks64 (l : List Nat) : List (List Nat) := chunks64F l.length l

/-- SHA-256 of a byte list, as the eight-word digest. -/
def sha256Digest (msg : List Nat) : Sha8 :=
  (chunks64 (shaPad msg)).foldl shaCompress sha8Init

/-- Eight lower-case hex digits of a 32-bit word. -/
def hex8 (n : Nat) : String := hex4 (n / 65536) ++ hex4 (n % 65536)

/-- `hashlib.sha256(bytes).hexdigest()`. -/
def sha256Hex (msg : List Nat) : String :=
  let d := sha256Digest msg
  hex8 d.sa ++ hex8 d.sb ++ hex8 d.sc ++ hex8 d.sd ++
  hex8 d.se ++ hex8 d.sf ++ hex8 d.sg ++ hex8 d.sh

/-- `VersionManager._calculate_content_hash`:
`hashlib.sha256(json.dumps(wireframe_json, sort_keys=True).encode()).hexdigest()`. -/
def calculateContentHash (w : JVal) : String :=
  sha256Hex (utf8Bytes (pyDumpsSorted w))

/-! ## The Redis keyspace of one session

All claims are per-session, so the store models the keys of a single
session: the metadata hash, the `state:v{n}` hashes, the
`version_metadata:v{n}` hashes and the context list.  `store_design_state`
serializes `wireframe_json` / `metadata` with plain `json.dumps` and
`get_design_state` parses them back; that round-trip is the identity on
`JVal`, so the model keeps the structured values.  Timestamps are `Nat`
seconds. -/

/-- `SessionStatus` (`models.py`). -/
inductive SessionStatus where
  | active
  | completed
  | expired
deriving Repr, DecidableEq

/-- The fields of the `session:{sid}:metadata` Redis hash that the claims
observe (the id / user / prompt strings are opaque and omitted). -/
structure SessionMeta where
  current_version : Nat
  created_at : Nat
  last_activity : Nat
  status : SessionStatus
  total_edits : Nat
deriving Repr, DecidableEq

/-- `models.DesignState`. -/
structure DesignState where
  wireframe_json : JVal
  metadata : List (String × JVal)
  created_at : Nat
  version : Nat
deriving Repr

/-- `models.EditContext` (edit_type kept as its wire string). -/
structure EditContext where
  prompt : String
  edit_type : String
  target_elements : List String
  timestamp : Nat
  processing_time_ms : Nat
deriving Repr, DecidableEq

/-- The raw `session:{sid}:version_metadata:v{n}` Redis hash.
`VersionManager._store_version_metadata` writes all eight fields
(`full = true`); `_mark_version_compressed` on a missing hash creates one
holding only the `compressed` field (`full = false`, the other field
slots are then meaningless). -/
structure VMetaHash where
  full : Bool
  version : Nat
  created_at : Nat
  changes_summary : String
  edit_type : String
  target_elements : List String
  processing_time_ms : Nat
  content_hash : String
  compressed : Bool
deriving Repr, DecidableEq

/-- Lookup in a `Nat`-keyed association list (a set of Redis keys). -/
def nget {α : Type} (l : List (Nat × α)) (k : Nat) : Option α :=
  match l with
  | [] => none
  | (k2, v) :: rest => if k2 = k then some v else nget rest k

/-- Overwrite-or-append in a `Nat`-keyed association list. -/
def nset {α : Type} (l : List (Nat × α)) (k : Nat) (v : α) : List (Nat × α) :=
  match l with
  | [] => [(k, v)]
  | (k2, v2) :: rest => if k2 = k then (k, v) :: rest else (k2, v2) :: nset rest k v

/-- One session's slice of the Redis keyspace. -/
structure Store where
  meta : Option SessionMeta
  states : List (Nat × DesignState)
  vmeta : List (Nat × VMetaHash)
  context : List EditContext
deriving Repr

/-- `RedisStateStore` tunables (`state_store.py.__init__`). -/
def contextLimit : Nat := 10

/-- Session TTL in model time units (24 h; the unit is irrelevant to the
claims, only the comparison against `last_activity` matters). -/
def sessionTTL : Nat := 86400

/-- `VersionManager` tunables (`version_manager.py.__init__`). -/
def maxVersionsPerSession : Nat := 50

def compressionThreshold : Nat := 10

/-! ### RedisStateStore operations -/

/-- `RedisStateStore.update_session_activity`: overwrite `last_activity`
with now.  (On a vanished key Redis would create a stray hash; the
modelled flows only call this while the metadata hash exists.) -/
def updateSessionActivity (now : Nat) (st : Store) : Store :=
  match st.meta with
  | none => st
  | some m => { st with meta := some { m with last_activity := now } }

/-- `RedisStateStore.store_design_state`: write the `state:v{version}` hash
(its `version` field is the *argument*, not `state.version`) and then
unconditionally overwrite `current_version := version` in the session
metadata hash. -/
def storeDesignState (st : Store) (version : Nat) (state : DesignState) : Store :=
  { st with
    states := nset st.states version { state with version := version }
    meta := match st.meta with
            | none => none
            | some m => some { m with current_version := version } }

/-- `RedisStateStore.get_design_state` (explicit version, or `none` for
the session's `current_version`). -/
def getDesignState (st : Store) (version : Option Nat) : Option DesignState :=
  match version with
  | some v => nget st.states v
  | none =>
    match st.meta with
    | none => none
    | some m => nget st.states m.current_version

/-- Ascending insertion sort on `Nat` (Python `sorted`). -/
def insertNat (x : Nat) : List Nat → List Nat
  | [] => [x]
  | y :: ys => if y < x then y :: insertNat x ys else x :: y :: ys

def sortNats (l : List Nat) : List Nat :=
  l.foldl (fun acc x => insertNat x acc) []

/-- `RedisStateStore.get_all_versions`: the version numbers of the existing
`state:v*` keys, sorted ascending. -/
def getAllVersions (st : Store) : List Nat :=
  sortNats (st.states.map (fun kv => kv.1))

/-- `RedisStateStore.add_context_entry`: `LPUSH` then `LTRIM 0 9`. -/
def addContextEntry (st : Store) (ctx : EditContext) : Store :=
  { st with context := (ctx :: st.context).take contextLimit }

/-- Redis `LRANGE` index semantics: negative indices count from the tail,
the stop index is inclusive and clamped to the last element. -/
def redisLrange {α : Type} (l : List α) (start stop : Int) : List α :=
  let n : Int := l.length
  let s : Int := if start < 0 then max 0 (n + start) else start
  let e : Int := min (if stop < 0 then n + stop else stop) (n - 1)
  if s > e then [] else (l.drop s.toNat).take (e - s + 1).toNat

/-- `RedisStateStore.get_context_history`: `LRANGE context 0 (limit - 1)`
parsed back (the JSON round-trip is the identity). -/
def getContextHistory (st : Store) (limit : Nat) : List EditContext :=
  redisLrange st.context 0 ((limit : Int) - 1)

/-- `RedisStateStore.increment_edit_count` (`HINCRBY total_edits 1`). -/
def incrementEditCount (st : Store) : Store :=
  match st.meta with
  | none => st
  | some m => { st with meta := some { m with total_edits := m.total_edits + 1 } }

/-! ### VersionManager -/

/-- `changes.get(k, default)` on a structured dict. -/
def jGetD (fs : List (String × JVal)) (k : String) (dflt : JVal) : JVal :=
  (dget fs k).getD dflt

/-- A dict value read as a string (the modelled flows only store strings
in these slots). -/
def jAsStr (v : Option JVal) (dflt : String) : String :=
  match v with
  | some (.str s) => s
  | _ => dflt

/-- A dict value read as a list of strings. -/
def jAsStrList (v : Option JVal) : List String :=
  match v with
  | some (.arr xs) => xs.filterMap (fun x => match x with | .str s => some s | _ => none)
  | _ => []

/-- A dict value read as a `Nat`. -/
def jAsNat (v : Option JVal) (dflt : Nat) : Nat :=
  match v with
  | some (.num n) => n.toNat
  | _ => dflt

/-- `VersionManager.get_version_metadata`: parse the raw hash; a missing
hash gives `None`, and a partial hash (only `compressed`, as left behind by
`_mark_version_compressed` on a state that never had full metadata) raises
`KeyError` on `data["version"]`, which the `except` turns into `None`. -/
def getVersionMetadata (st : Store) (v : Nat) : Option VMetaHash :=
  match nget st.vmeta v with
  | none => none
  | some h => if h.full then some h else none

/-- `VersionManager._store_version_metadata`. -/
def storeVersionMetadata (st : Store) (v : Nat) (ds : DesignState)
    (changes : List (String × JVal)) : Store :=
  let rec_ : VMetaHash :=
    { full := true
      version := v
      created_at := ds.created_at
      changes_summary := jAsStr (dget changes "summary") ""
      edit_type := jAsStr (dget changes "edit_type") "modify"
      target_elements := jAsStrList (dget changes "target_elements")
      processing_time_ms := jAsNat (dget changes "processing_time_ms") 0
      content_hash := jAsStr (dget ds.metadata "content_hash") ""
      compressed := false }
  { st with vmeta := nset st.vmeta v rec_ }

/-- `VersionManager._mark_version_compressed`: `HSET ... compressed true`;
on a missing hash Redis creates one holding only that field. -/
def markVersionCompressed (st : Store) (v : Nat) : Store :=
  match nget st.vmeta v with
  | some h => { st with vmeta := nset st.vmeta v { h with compressed := true } }
  | none =>
    { st with
      vmeta := nset st.vmeta v
        { full := false, version := 0, created_at := 0, changes_summary := ""
          edit_type := "", target_elements := [], processing_time_ms := 0
          content_hash := "", compressed := true } }

/-- `wireframe_json.get("elements", [])` as a list. -/
def jElements (w : JVal) : List JVal :=
  match w with
  | .obj fs =>
    match dget fs "elements" with
    | some (.arr xs) => xs
    | _ => []
  | _ => []

/-- `element.get(k)` with Python's `None` for a missing key (elements in
the modelled flows are JSON objects). -/
def elemGet (e : JVal) (k : String) : JVal :=
  match e with
  | .obj fs => (dget fs k).getD .null
  | _ => .null

/-- `VersionManager._create_compressed_state`: skeleton wireframe
(`id`/`type`/`position`/`size` per element plus `layout` and a
`compressed` marker), metadata extended with `compressed` and
`original_size`; `version` and `created_at` are carried over. -/
def createCompressedState (state : DesignState) : DesignState :=
  let compressedElems := (jElements state.wireframe_json).map (fun e =>
    JVal.obj [("id", elemGet e "id"), ("type", elemGet e "type"),
              ("position", elemGet e "position"), ("size", elemGet e "size")])
  let compressedWireframe : JVal :=
    .obj [("elements", .arr compressedElems),
          ("layout", match state.wireframe_json with
                     | .obj fs => jGetD fs "layout" (.obj [])
                     | _ => .obj []),
          ("compressed", .bool true)]
  let compressedMeta :=
    dset (dset state.metadata "compressed" (.bool true))
         "original_size" (.num (pyDumpsPlain state.wireframe_json).length)
  { wireframe_json := compressedWireframe
    metadata := compressedMeta
    created_at := state.created_at
    version := state.version }

/-- One iteration of the `compress_old_versions` loop: skip when the
version metadata record parses and is marked compressed, otherwise rewrite
the state through `store_design_state` and mark it compressed. -/
def compressStep (acc : Nat × Store) (v : Nat) : Nat × Store :=
  let (count, st) := acc
  match getVersionMetadata st v with
  | some mr =>
    if mr.compressed then (count, st)
    else
      match getDesignState st (some v) with
      | none => (count, st)
      | some state =>
        let st1 := storeDesignState st v (createCompressedState state)
        (count + 1, markVersionCompressed st1 v)
  | none =>
    match getDesignState st (some v) with
    | none => (count, st)
    | some state =>
      let st1 := storeDesignState st v (createCompressedState state)
      (count + 1, markVersionCompressed st1 v)

/-- `VersionManager.compress_old_versions`: sort the versions descending,
keep the first `keep_recent`, compress the rest (oldest processed last).
Returns the number compressed and the updated store. -/
def compressOldVersions (st : Store) (keepRecent : Nat) : Nat × Store :=
  let allV := getAllVersions st
  if allV.length ≤ keepRecent then (0, st)
  else ((allV.reverse).drop keepRecent).foldl compressStep (0, st)

/-- `VersionManager._check_and_compress_versions`. -/
def checkAndCompressVersions (st : Store) : Store :=
  if maxVersionsPerSession < (getAllVersions st).length then
    (compressOldVersions st compressionThreshold).2
  else st

/-- `VersionManager.create_version`: next version number, content hash,
metadata merge (`{**metadata, "changes": …, "content_hash": …, …}` — the
computed entries are written last and therefore win), store, parallel
version-metadata record, compression check. -/
def createVersion (now : Nat) (st : Store) (wireframe : JVal)
    (changes metadata : List (String × JVal)) : Store × Except String Nat :=
  match st.meta with
  | none => (st, .error "Session not found")
  | some m =>
    let newVersion := m.current_version + 1
    let contentHash := calculateContentHash wireframe
    let dsMeta :=
      dset (dset (dset (dset (dset metadata
        "changes" (.obj changes))
        "content_hash" (.str contentHash))
        "edit_type" (jGetD changes "edit_type" (.str "modify")))
        "target_elements" (jGetD changes "target_elements" (.arr [])))
        "processing_time_ms" (jGetD changes "processing_time_ms" (.num 0))
    let designState : DesignState :=
      { wireframe_json := wireframe, metadata := dsMeta
        created_at := now, version := newVersion }
    let st1 := storeDesignState st newVersion designState
    let st2 := storeVersionMetadata st1 newVersion designState changes
    let st3 := checkAndCompressVersions st2
    (st3, .ok newVersion)

/-- `VersionManager.verify_version_integrity`: recompute the hash of the
stored wireframe and compare with `metadata["content_hash"]`; a missing or
falsy stored hash yields `False`. -/
def verifyVersionIntegrity (st : Store) (v : Nat) : Bool :=
  match getDesignState st (some v) with
  | none => false
  | some state =>
    let currentHash := calculateContentHash state.wireframe_json
    match dget state.metadata "content_hash" with
    | some (.str storedHash) =>
      if storedHash = "" then false else currentHash = storedHash
    | _ => false

/-! ### DesignSessionManager -/

/-- `models.EditResult` (the fields the claims observe). -/
structure EditResult where
  success : Bool
  new_version : Nat
  updated_wireframe : JVal
  changes_summary : String
deriving Repr, DecidableEq

/-- Injected storage faults for the context-advisory path (`state_store`
returns `False` from `add_context_entry` / `increment_edit_count` when its
Redis call raises). -/
structure Faults where
  addContextFails : Bool
  incrementFails : Bool
deriving Repr

def noFaults : Faults := ⟨false, false⟩

/-- `DesignSessionManager._is_session_expired`. -/
def isSessionExpired (now : Nat) (m : SessionMeta) : Bool :=
  m.last_activity + sessionTTL < now

/-- `DesignSessionManager._mark_session_expired`. -/
def markSessionExpired (st : Store) : Store :=
  match st.meta with
  | none => st
  | some m => { st with meta := some { m with status := .expired } }

/-- `DesignSessionManager.get_session`: lazy expiration on read, then an
activity bump.  Returns the session (as its metadata record) and the
updated store. -/
def getSession (now : Nat) (st : Store) : Option SessionMeta × Store :=
  match st.meta with
  | none => (none, st)
  | some m =>
    if isSessionExpired now m then (none, markSessionExpired st)
    else (some m, updateSessionActivity now st)

/-- `DesignSessionManager.complete_session`. -/
def completeSession (now : Nat) (st : Store) : Store × Except String Unit :=
  match getSession now st with
  | (none, st1) => (st1, .error "Session not found")
  | (some _, st1) =>
    match st1.meta with
    | none => (st1, .ok ())
    | some m =>
      (updateSessionActivity now { st1 with meta := some { m with status := .completed } },
       .ok ())

/-- `DesignSessionManager.update_session_state` (stores version 1 on the
create path; writes no version-metadata record). -/
def updateSessionState (now : Nat) (st : Store) (newState : DesignState) :
    Store × Except String Unit :=
  match getSession now st with
  | (none, st1) => (st1, .error "Session not found or expired")
  | (some m, st1) =>
    if m.status ≠ .active then (st1, .error "Cannot update inactive session")
    else (updateSessionActivity now (storeDesignState st1 newState.version newState), .ok ())

/-- `DesignSessionManager.add_edit_context`: re-reads the session, raises
`SessionManagerError` when `add_context_entry` returns `False`, and
*ignores* the return value of `increment_edit_count`. -/
def addEditContext (faults : Faults) (now : Nat) (st : Store) (ctx : EditContext) :
    Store × Except String Unit :=
  match getSession now st with
  | (none, st1) => (st1, .error "Session not found or expired")
  | (some _, st1) =>
    if faults.addContextFails then (st1, .error "Failed to add context")
    else
      let st2 := addContextEntry st1 ctx
      let st3 := if faults.incrementFails then st2 else incrementEditCount st2
      (st3, .ok ())

/-- `DesignSessionManager.apply_edit`: guard, `create_version`, context
append, edit-count increment.  A `SessionManagerError` from
`add_edit_context` propagates (`except SessionManagerError: raise`), but
the already-stored version stays in the store. -/
def applyEdit (faults : Faults) (now : Nat) (st : Store) (wireframe : JVal)
    (changes metadata : List (String × JVal)) : Store × Except String EditResult :=
  match getSession now st with
  | (none, st1) => (st1, .error "Session not found or expired")
  | (some m, st1) =>
    if m.status ≠ .active then (st1, .error "Cannot edit inactive session")
    else
      match createVersion now st1 wireframe changes metadata with
      | (st2, .error e) => (st2, .error e)
      | (st2, .ok newVersion) =>
        let ctx : EditContext :=
          { prompt := jAsStr (dget changes "prompt") ""
            edit_type := jAsStr (dget changes "edit_type") "modify"
            target_elements := jAsStrList (dget changes "target_elements")
            timestamp := now
            processing_time_ms := 0 }
        match addEditContext faults now st2 ctx with
        | (st3, .error e) => (st3, .error e)
        | (st3, .ok _) =>
          (st3, .ok { success := true, new_version := newVersion
                      updated_wireframe := wireframe
                      changes_summary := jAsStr (dget changes "summary") "" })

/-- `DesignSessionManager.verify_session_integrity` (the tallies). -/
def verifySessionIntegrity (st : Store) : Nat × Nat × List Nat :=
  (getAllVersions st).foldl
    (fun acc v =>
      if verifyVersionIntegrity st v then (acc.1 + 1, acc.2.1, acc.2.2)
      else (acc.1, acc.2.1 + 1, acc.2.2 ++ [v]))
    (0, 0, [])

/-- A fresh session's keyspace right after `create_session`
(`current_version = 1`, `status = active`, nothing stored yet). -/
def freshStore (now : Nat) : Store :=
  { meta := some { current_version := 1, created_at := now, last_activity := now
                   status := .active, total_edits := 0 }
    states := [], vmeta := [], context := [] }

/-- An exact nonnegative rational (numerator / denominator, unreduced),
modelling the engine's float confidence scores.  Every score the engine
produces is a multiple of 0.1, and the comparisons the claims touch
(equality with 0.6, ordering against 0.7) agree between IEEE doubles and
exact rationals on those values. -/
structure Frac where
  num : Nat
  den : Nat
deriving Repr, DecidableEq

/-- Value equality of fractions (cross multiplication). -/
def fracEq (a b : Frac) : Bool := a.num * b.den = b.num * a.den

/-- Value order of fractions. -/
def fracLt (a b : Frac) : Bool := a.num * b.den < b.num * a.den

/-! ## Context engine (`context_engine.py`)

The `re` patterns of `_build_intent_patterns` / `_build_reference_patterns`
are embedded as a regular-expression AST with an executable backtracking
matcher.  The patterns only ever use literals, the classes `\s` and `\w`,
quote classes, `(?:…)?` groups, alternation, `+` on a class, and `\b`, so
the AST has exactly those constructors. -/

/-- Python `\s` (ASCII range; prompts are ASCII). -/
def isWsChar (c : Char) : Bool :=
  c = ' ' || c = '\t' || c = '\n' || c = '\r' || c.toNat = 11 || c.toNat = 12

/-- Python `\w` (ASCII range). -/
def isWdChar (c : Char) : Bool :=
  c.isAlpha || c.isDigit || c = '_'

/-- Character classes occurring in the engine's patterns. -/
inductive CharCl where
  | ws
  | wd
  | oneOf (cs : List Char)
  | notOf (cs : List Char)
deriving Repr

def CharCl.test : CharCl → Char → Bool
  | .ws, c => isWsChar c
  | .wd, c => isWdChar c
  | .oneOf cs, c => cs.contains c
  | .notOf cs, c => !(cs.contains c)

/-- Regular expressions as the engine's patterns use them. -/
inductive RE where
  | eps
  | lit (s : String)
  | cls (c : CharCl)
  | many1 (c : CharCl)
  | cat (a b : RE)
  | alt (a b : RE)
  | opt (a : RE)
  | bnd
deriving Repr

/-- Match a literal character sequence. -/
def litMatch {β : Type} : List Char → Option Char → List Char →
    (Option Char → List Char → Option β) → Option β
  | [], prev, rest, k => k prev rest
  | _ :: _, _, [], _ => none
  | c :: cs, _, x :: xs, k => if x = c then litMatch cs (some x) xs k else none

/-- Greedy continuation of `+` after the first character: consume as many
further class characters as possible, backtracking one at a time. -/
def many1More {β : Type} (cc : CharCl) : Option Char → List Char →
    (Option Char → List Char → Option β) → Option β
  | prev, [], k => k prev []
  | prev, x :: xs, k =>
    if cc.test x then
      match many1More cc (some x) xs k with
      | some r => some r
      | none => k prev (x :: xs)
    else k prev (x :: xs)

def wordish (c : Option Char) : Bool :=
  match c with
  | some x => isWdChar x
  | none => false

/-- `\b`: a word character on exactly one side of the position. -/
def atBoundary (prev : Option Char) (rest : List Char) : Bool :=
  wordish prev != wordish rest.head?

/-- Backtracking matcher in continuation style; `prev` is the character
just before the current position (for `\b`).  Alternatives and `?` are
tried in Python's order (left / greedy first), and the continuation can
reject, so the first overall success in Python's backtracking order is
returned. -/
def matchRE {β : Type} : RE → Option Char → List Char →
    (Option Char → List Char → Option β) → Option β
  | .eps, p, xs, k => k p xs
  | .lit s, p, xs, k => litMatch s.data p xs k
  | .cls _, _, [], _ => none
  | .cls c, _, x :: xs, k => if c.test x then k (some x) xs else none
  | .many1 _, _, [], _ => none
  | .many1 c, _, x :: xs, k => if c.test x then many1More c (some x) xs k else none
  | .cat a b, p, xs, k => matchRE a p xs (fun p2 xs2 => matchRE b p2 xs2 k)
  | .alt a b, p, xs, k =>
    match matchRE a p xs k with
    | some r => some r
    | none => matchRE b p xs k
  | .opt a, p, xs, k =>
    match matchRE a p xs k with
    | some r => some r
    | none => k p xs
  | .bnd, p, xs, k => if atBoundary p xs then k p xs else none

/-- `re.search` as a Boolean: does the pattern match anywhere? -/
def searchFrom (r : RE) : Option Char → List Char → Bool
  | prev, xs =>
    (matchRE r prev xs (fun _ _ => some ())).isSome ||
    match xs with
    | [] => false
    | x :: rest => searchFrom r (some x) rest

def reSearch (r : RE) (s : String) : Bool := searchFrom r none s.data

/-- The maximal (greedy) nonempty run of a class — the capture of a
trailing `(\w+)` style group. -/
def grabMany1 (cc : CharCl) : List Char → Option (List Char × Option Char × List Char)
  | [] => none
  | x :: xs =>
    if cc.test x then
      match grabMany1 cc xs with
      | some (cap, p, rest) => some (x :: cap, p, rest)
      | none => some ([x], some x, xs)
    else none

/-- `re.findall` for the reference patterns, which all have the shape
`prefix(\w+)`: scan left to right, report each capture, resume after the
match.  Fuel is the input length, enough for every scan step. -/
def findallPreAux (pre : RE) (cc : CharCl) : Nat → Option Char → List Char → List String
  | 0, _, _ => []
  | fuel + 1, prev, xs =>
    match matchRE pre prev xs (fun _ rest2 => grabMany1 cc rest2) with
    | some (cap, capLast, rest3) => String.mk cap :: findallPreAux pre cc fuel capLast rest3
    | none =>
      match xs with
      | [] => []
      | x :: rest => findallPreAux pre cc fuel (some x) rest

def findallPre (pre : RE) (cc : CharCl) (s : String) : List String :=
  findallPreAux pre cc (s.data.length + 1) none s.data

/-! ### The pattern tables -/

def reCat2 : List RE → RE
  | [] => .eps
  | [r] => r
  | r :: rs => .cat r (reCat2 rs)

/-- Alternation of word literals (`(?:a|b|c)`), in source order. -/
def reWords : List String → RE
  | [] => .eps
  | [s] => .lit s
  | s :: rest => .alt (.lit s) (reWords rest)

/-- `(?:word\s+)?`. -/
def reOptWordWs (s : String) : RE := .opt (.cat (.lit s) (.many1 .ws))

/-- `word\s+`. -/
def reWordWs (s : String) : RE := .cat (.lit s) (.many1 .ws)

/-- `(\w+)` (as a plain match; captures are read by `findallPre`). -/
def reWdGroup : RE := .many1 .wd

/-- `["']`. -/
def reQuote : RE := .cls (.oneOf ['"', Char.ofNat 39])

/-- `([^"']+)`. -/
def reNotQuotePlus : RE := .many1 (.notOf ['"', Char.ofNat 39])

/-- `EditIntent` (`context_engine.py`). -/
inductive EditIntent where
  | modify_element
  | add_element
  | remove_element
  | change_style
  | change_layout
  | change_color
  | change_size
  | change_position
  | change_text
  | unclear
deriving Repr, DecidableEq

/-- `EditType` (`models.py`). -/
inductive EditTypeE where
  | modify
  | add
  | remove
  | style
  | layout
deriving Repr, DecidableEq

/-- `_build_intent_patterns`, in dict insertion order (the order
`extract_edit_intent` probes them). -/
def intentPatternTable : List (EditIntent × List RE) :=
  [ (.add_element,
      [ reCat2 [reWordWs "add", reOptWordWs "a", reWdGroup],
        reCat2 [reWordWs "create", reOptWordWs "a", reWdGroup],
        reCat2 [reWordWs "insert", reOptWordWs "a", reWdGroup],
        reCat2 [reWordWs "put", reOptWordWs "a", reWdGroup],
        reCat2 [reWordWs "include", reOptWordWs "a", reWdGroup] ]),
    (.remove_element,
      [ reCat2 [reWordWs "remove", reOptWordWs "the", reWdGroup],
        reCat2 [reWordWs "delete", reOptWordWs "the", reWdGroup],
        reCat2 [reWordWs "take", reWords ["away", "out"], .many1 .ws,
                reOptWordWs "the", reWdGroup],
        reCat2 [reWordWs "get", reWordWs "rid", reWordWs "of",
                reOptWordWs "the", reWdGroup] ]),
    (.change_color,
      [ reCat2 [reWords ["change", "set"], .many1 .ws, reOptWordWs "the",
                reWords ["color", "colour"], .many1 .ws, reOptWordWs "to", reWdGroup],
        reCat2 [reWords ["color", "colour"], .many1 .ws, reOptWordWs "it", reWdGroup],
        reCat2 [reWordWs "make", reOptWordWs "it",
                reWords ["color", "colour", "red", "blue", "green", "yellow",
                         "purple", "orange", "black", "white", "gray", "grey"]],
        reCat2 [reWordWs "turn", reOptWordWs "it",
                reWords ["red", "blue", "green", "yellow", "purple", "orange",
                         "black", "white", "gray", "grey"]] ]),
    (.change_size,
      [ reCat2 [reWordWs "make", reOptWordWs "it",
                reWords ["bigger", "larger", "smaller", "tiny", "huge", "large", "small"]],
        reCat2 [reWords ["increase", "decrease"], .many1 .ws, reOptWordWs "the", .lit "size"],
        reCat2 [reWordWs "resize", reOptWordWs "it", reOptWordWs "to", reWdGroup] ]),
    (.change_position,
      [ reCat2 [reWordWs "move", reOptWordWs "it", reOptWordWs "to", reOptWordWs "the",
                reWords ["left", "right", "top", "bottom", "center", "centre"]],
        reCat2 [reWordWs "position", reOptWordWs "it", reOptWordWs "at", reOptWordWs "the",
                reWords ["left", "right", "top", "bottom", "center", "centre"]],
        reCat2 [reWordWs "align", reOptWordWs "it", reOptWordWs "to", reOptWordWs "the",
                reWords ["left", "right", "center", "centre"]] ]),
    (.change_text,
      [ reCat2 [reWords ["change", "update", "set"], .many1 .ws, reOptWordWs "the",
                reWordWs "text", reWordWs "to", reQuote, reNotQuotePlus, reQuote],
        reCat2 [reWordWs "make", reOptWordWs "it", reWordWs "say",
                reQuote, reNotQuotePlus, reQuote],
        reCat2 [reWordWs "update", reOptWordWs "the",
                reWords ["label", "title", "heading"], .many1 .ws, reWordWs "to",
                reQuote, reNotQuotePlus, reQuote] ]),
    (.change_style,
      [ reCat2 [reWordWs "style", reOptWordWs "it", reOptWordWs "as", reWdGroup],
        reCat2 [reWordWs "make", reOptWordWs "it", reOptWordWs "look", reOptWordWs "more",
                reWords ["modern", "elegant", "simple", "clean", "fancy",
                         "professional", "casual"]],
        reCat2 [reWordWs "apply", reWdGroup, .many1 .ws, .lit "style"] ]) ]

/-- The two PRONOUN patterns (`\b(it|that|this)\b`, `\b(them|those|these)\b`). -/
def pronounPatterns : List RE :=
  [ reCat2 [.bnd, reWords ["it", "that", "this"], .bnd],
    reCat2 [.bnd, reWords ["them", "those", "these"], .bnd] ]

/-- The three ELEMENT_TYPE pattern prefixes (`the\s+`, `that\s+`,
`this\s+`), each followed by the `(\w+)` capture. -/
def elementTypePrefixes : List RE :=
  [ reWordWs "the", reWordWs "that", reWordWs "this" ]

/-- The closed element-type vocabulary. -/
def elementTypes : List String :=
  [ "button", "btn", "link", "header", "title", "text", "input", "field",
    "image", "img", "icon", "menu", "nav", "navigation", "sidebar", "footer",
    "card", "container", "box", "div", "section", "form", "table", "list" ]

/-! ### Intent extraction -/

/-- ASCII `str.lower()`. -/
def pyLower (s : String) : String := String.mk (s.data.map Char.toLower)

/-- `str.strip()`. -/
def pyStrip (s : String) : String :=
  String.mk (((s.data.dropWhile isWsChar).reverse.dropWhile isWsChar).reverse)

def listStartsWith : List Char → List Char → Bool
  | [], _ => true
  | _ :: _, [] => false
  | a :: as, b :: bs => a = b && listStartsWith as bs

def listHasSub (needle : List Char) : List Char → Bool
  | [] => needle.isEmpty
  | x :: xs => listStartsWith needle (x :: xs) || listHasSub needle xs

/-- Python `needle in hay` on strings. -/
def containsSub (needle hay : String) : Bool := listHasSub needle.data hay.data

def firstIntentMatch : List (EditIntent × List RE) → String → Option EditIntent
  | [], _ => none
  | (i, ps) :: rest, s =>
    if ps.any (fun r => reSearch r s) then some i else firstIntentMatch rest s

/-- `ContextProcessingEngine.extract_edit_intent`: ordered regex probe over
the lower-cased stripped prompt, then the keyword fallback chain (note the
quote test in the text branch runs on the *original* prompt). -/
def extractEditIntent (prompt : String) : EditIntent :=
  let pl := pyStrip (pyLower prompt)
  match firstIntentMatch intentPatternTable pl with
  | some i => i
  | none =>
    if (["bigger", "smaller", "large", "small", "tiny", "huge"].any
          (fun w => containsSub w pl)) || containsSub "size" pl then
      .change_size
    else if ((["say", "text", "label", "title"].any (fun w => containsSub w pl)) &&
               containsSub "\"" prompt) ||
            (containsSub "text" pl && containsSub "to" pl) then
      .change_text
    else if ["move", "position", "align"].any (fun w => containsSub w pl) then
      .change_position
    else if ["color", "colour"].any (fun w => containsSub w pl) then
      .change_color
    else if ["add", "create", "insert", "new"].any (fun w => containsSub w pl) then
      .add_element
    else if ["remove", "delete", "hide"].any (fun w => containsSub w pl) then
      .remove_element
    else if ["style", "look", "appearance"].any (fun w => containsSub w pl) then
      .change_style
    else
      .unclear

/-- `_intent_to_edit_type`. -/
def intentToEditType : EditIntent → EditTypeE
  | .add_element => .add
  | .remove_element => .remove
  | .modify_element => .modify
  | .change_style => .style
  | .change_color => .style
  | .change_size => .style
  | .change_text => .modify
  | .change_position => .layout
  | .change_layout => .layout
  | .unclear => .modify

/-! ### Element extraction, reference resolution, prompt building -/

mutual
/-- `_extract_elements_from_design.extract_recursive`: preorder walk; a
mapping with a `type` / `component` / `element` key is an element; the walk
descends through `children` / `components` / `elements` values (lists
item-wise, scalars directly). -/
def extractElems : JVal → List JVal
  | .obj fs =>
    (if ["type", "component", "element"].any (fun k => dmem fs k)
     then [JVal.obj fs] else []) ++ extractFromFields fs
  | .arr xs => extractFromItems xs
  | _ => []

def extractFromFields : List (String × JVal) → List JVal
  | [] => []
  | (k, v) :: rest =>
    (if k = "children" || k = "components" || k = "elements"
     then extractElems v else []) ++ extractFromFields rest

def extractFromItems : List JVal → List JVal
  | [] => []
  | x :: xs => extractElems x ++ extractFromItems xs
end

/-- `elem.get(k, dflt)` read as a string; the modelled designs store
strings in the `type` / `id` / `class` / `text` / `label` slots. -/
def elemGetStrD (e : JVal) (k : String) (dflt : String) : String :=
  match e with
  | .obj fs =>
    match dget fs k with
    | some (.str s) => s
    | some _ => ""
    | none => dflt
  | _ => dflt

/-- Stable descending-by-timestamp insertion (Python
`sorted(key=timestamp, reverse=True)` keeps the original order of ties). -/
def insertByTsDesc (c : EditContext) : List EditContext → List EditContext
  | [] => [c]
  | d :: ds => if d.timestamp < c.timestamp then c :: d :: ds else d :: insertByTsDesc c ds

def sortByTsDesc (l : List EditContext) : List EditContext :=
  l.foldl (fun acc c => insertByTsDesc c acc) []

def dedupKeepFirst (seen : List String) : List String → List String
  | [] => []
  | x :: xs =>
    if seen.contains x then dedupKeepFirst seen xs
    else x :: dedupKeepFirst (x :: seen) xs

/-- `_get_recent_target_elements`: targets of the three most recent
contexts, most recent first, deduplicated keeping first occurrence. -/
def getRecentTargetElements (hist : List EditContext) : List String :=
  let sortedCtx := sortByTsDesc hist
  let recent := (sortedCtx.take 3).foldl (fun acc c => acc ++ c.target_elements) []
  dedupKeepFirst [] recent

/-- One `element_type` step of the `_resolve_references` loop: vocabulary
check, then substring match against each design element's `type` / `id` /
`class`, with confidence 0.9 (unique match), 0.6 (several) or 0.3 (none). -/
def resolveElementType (designElements : List JVal) (acc : List String × List Nat)
    (elementType : String) : List String × List Nat :=
  if elementTypes.contains elementType then
    let matching := designElements.filter (fun e =>
      containsSub elementType (pyLower (elemGetStrD e "type" "")) ||
      containsSub elementType (pyLower (elemGetStrD e "id" "")) ||
      containsSub elementType (pyLower (elemGetStrD e "class" "")))
    match matching with
    | [] => (acc.1 ++ [elementType], acc.2 ++ [3])
    | [e] => (acc.1 ++ [elemGetStrD e "id" elementType], acc.2 ++ [9])
    | es => (acc.1 ++ es.map (fun e => elemGetStrD e "id" elementType), acc.2 ++ [6])
  else acc

/-- `_resolve_references`: pronoun resolution from recent targets (0.6),
explicit element-type references (0.9 / 0.6 / 0.3), inference fallback
(0.4), overall confidence the arithmetic mean of the fired rules. -/
def resolveReferences (prompt : String) (currentState : DesignState)
    (contextHistory : List EditContext) : List String × Frac :=
  let pl := pyLower prompt
  let designElements := extractElems currentState.wireframe_json
  let pronounFound := pronounPatterns.any (fun r => reSearch r pl)
  let acc0 : List String × List Nat :=
    if pronounFound then
      match getRecentTargetElements contextHistory with
      | [] => ([], [])
      | e :: _ => ([e], [6])
    else ([], [])
  let elementMatches := elementTypePrefixes.foldl
    (fun acc pre => acc ++ findallPre pre .wd pl) []
  let acc1 := elementMatches.foldl (resolveElementType designElements) acc0
  let acc2 :=
    if acc1.1.isEmpty && !contextHistory.isEmpty then
      match getRecentTargetElements contextHistory with
      | [] => acc1
      | e :: _ => (acc1.1 ++ [e], acc1.2 ++ [4])
    else acc1
  let confidence : Frac :=
    if acc2.2.isEmpty then ⟨0, 1⟩
    else ⟨acc2.2.foldl (· + ·) 0, 10 * acc2.2.length⟩
  (acc2.1, confidence)

/-- `build_contextual_prompt`: the context header, up to five element
summaries, up to three recent changes, the user request and the fixed
closing instruction. -/
def buildContextualPrompt (basePrompt : String) (designState : JVal)
    (recentChanges : List EditContext) : String :=
  let elements := extractElems designState
  let parts0 := ["Current Design Context:"]
  let elementSummary := (elements.take 5).map (fun e =>
    let elemType := elemGetStrD e "type" "element"
    let elemId := elemGetStrD e "id" ""
    let elemText := elemGetStrD e "text" (elemGetStrD e "label" "")
    let s1 := "- " ++ elemType
    let s2 := if elemId ≠ "" then s1 ++ " (id: " ++ elemId ++ ")" else s1
    if elemText ≠ "" then s2 ++ ": \x27" ++ elemText ++ "\x27" else s2)
  let parts1 :=
    if elements.isEmpty then parts0
    else parts0 ++ ["Elements in design:"] ++ elementSummary
  let changeLines := ((recentChanges.take 3).zip (List.range 3)).map (fun ci =>
    toString (ci.2 + 1) ++ ". " ++ ci.1.prompt ++ " (type: " ++ ci.1.edit_type ++ ")")
  let parts2 :=
    if recentChanges.isEmpty then parts1
    else parts1 ++ ["\nRecent Changes:"] ++ changeLines
  let contextStr := joinSep "\n" parts2
  pyStrip ("\n" ++ contextStr ++ "\n\nUser Request: " ++ basePrompt ++
    "\n\nPlease apply the requested change to the design, taking into account the current elements and recent modifications. If the request refers to \"it\", \"that\", or \"the [element]\", use the context above to identify the correct target element.\n")

/-- `_generate_clarification_options`.  (The `Available:` list goes through
a Python `set`, whose iteration order is unspecified; the model keeps first
occurrences.  No claim inspects that order.) -/
def generateClarificationOptions (prompt : String) (currentState : DesignState)
    (resolvedElements : List String) : List String :=
  let opts :=
    if 1 < resolvedElements.length then
      ["Which element do you want to modify: " ++ joinSep ", " resolvedElements ++ "?"]
    else if resolvedElements.isEmpty then
      let designElements := extractElems currentState.wireframe_json
      if designElements.isEmpty then
        ["Please specify which element you want to modify."]
      else
        let elementTypeNames := dedupKeepFirst []
          ((designElements.take 5).map (fun e => elemGetStrD e "type" "element"))
        ["Which element do you want to modify? Available: " ++ joinSep ", " elementTypeNames]
    else []
  let opts2 :=
    if extractEditIntent prompt = .unclear then
      opts ++ ["What would you like to do? (add, remove, modify, change style, etc.)"]
    else opts
  if opts2.isEmpty then
    ["Please provide more specific details about what you want to change."]
  else opts2

/-- `ProcessedEdit` (the fields the claims observe; the float confidence is
exact rational arithmetic, which agrees with CPython on every value the
engine produces for the claims at hand). -/
structure ProcessedEdit where
  original_prompt : String
  enhanced_prompt : String
  edit_intent : EditIntent
  edit_type : EditTypeE
  target_elements : List String
  confidence_score : Frac
  needs_clarification : Bool
  clarification_options : Option (List String)
deriving Repr

def confidenceThreshold : Frac := ⟨7, 10⟩

/-- `ContextProcessingEngine.process_edit_with_context` (the pure pipeline:
intent, reference resolution, enhanced prompt, clarification decision). -/
def processEditWithContext (currentState : DesignState) (editPrompt : String)
    (contextHistory : List EditContext) : ProcessedEdit :=
  let editIntent := extractEditIntent editPrompt
  let editType := intentToEditType editIntent
  let rc := resolveReferences editPrompt currentState contextHistory
  let enhancedPrompt := buildContextualPrompt editPrompt currentState.wireframe_json contextHistory
  let needsClarification := fracLt rc.2 confidenceThreshold
  let clarificationOptions :=
    if needsClarification
    then some (generateClarificationOptions editPrompt currentState rc.1)
    else none
  { original_prompt := editPrompt
    enhanced_prompt := enhancedPrompt
    edit_intent := editIntent
    edit_type := editType
    target_elements := rc.1
    confidence_score := rc.2
    needs_clarification := needsClarification
    clarification_options := clarificationOptions }

/-- Insertion sort of object fields by key (for the canonical form that
realizes Python's order-insensitive dict equality). -/
def insertFieldJ (p : String × JVal) : List (String × JVal) → List (String × JVal)
  | [] => [p]
  | q :: rest => if strLtB q.1 p.1 then q :: insertFieldJ p rest else p :: q :: rest

def sortFieldsJ (fs : List (String × JVal)) : List (String × JVal) :=
  fs.foldl (fun acc p => insertFieldJ p acc) []

mutual
/-- Canonical form: object fields sorted by key at every depth.  Two
(parsed, duplicate-free) JSON values are equal in Python's `==` sense iff
their canonical forms are structurally equal. -/
def jvCanon : JVal → JVal
  | .null => .null
  | .bool b => .bool b
  | .num n => .num n
  | .str s => .str s
  | .arr xs => .arr (jvCanonList xs)
  | .obj fs => .obj (sortFieldsJ (jvCanonFields fs))

def jvCanonList : List JVal → List JVal
  | [] => []
  | x :: xs => jvCanon x :: jvCanonList xs

def jvCanonFields : List (String × JVal) → List (String × JVal)
  | [] => []
  | (k, v) :: fs => (k, jvCanon v) :: jvCanonFields fs
end

/-- Python `==` on parsed JSON values (dict comparison ignores key order). -/
def pyEqJ (a b : JVal) : Bool := jvCanon a = jvCanon b

/-! ## Version diff (`VersionManager._calculate_diff` / `get_version_diff`) -/

/-- Python truthiness of a JSON value (`if elem.get("id")`). -/
def jTruthy : JVal → Bool
  | .null => false
  | .bool b => b
  | .num n => n ≠ 0
  | .str s => s ≠ ""
  | .arr xs => !xs.isEmpty
  | .obj fs => !fs.isEmpty

/-- The id under which the diff keys an element: the value of its `id`
entry when that value is truthy, otherwise none (the element is invisible
to the diff). -/
def elemIdKey (e : JVal) : Option JVal :=
  match e with
  | .obj fs =>
    match dget fs "id" with
    | some v => if jTruthy v then some v else none
    | none => none
  | _ => none

/-- Assoc-list lookup with `JVal` keys (a Python dict keyed by ids). -/
def jget (l : List (JVal × JVal)) (k : JVal) : Option JVal :=
  match l with
  | [] => none
  | (k2, v) :: rest => if k2 = k then some v else jget rest k

/-- Assoc-list update with `JVal` keys (later duplicates overwrite, as in
a dict comprehension). -/
def jset (l : List (JVal × JVal)) (k : JVal) (v : JVal) : List (JVal × JVal) :=
  match l with
  | [] => [(k, v)]
  | (k2, v2) :: rest => if k2 = k then (k, v) :: rest else (k2, v2) :: jset rest k v

def lookupGo (acc : List (JVal × JVal)) : List JVal → List (JVal × JVal)
  | [] => acc
  | e :: rest =>
    lookupGo (match elemIdKey e with | none => acc | some i => jset acc i e) rest

/-- `{elem.get("id"): elem for elem in elements if elem.get("id")}`. -/
def buildIdLookup (es : List JVal) : List (JVal × JVal) := lookupGo [] es

/-- The diff record (`modified` entries are the `{id, from, to}` dicts as a
structured triple). -/
structure VersionDiffR where
  added : List JVal
  removed : List JVal
  modified : List (JVal × JVal × JVal)
  metadata_changes : List (String × Option JVal × Option JVal)
  summary : String
deriving Repr

/-- `VersionManager._calculate_diff`.  The `modified` loop iterates a
Python set intersection whose order is unspecified; the model uses the
from-lookup's insertion order (no claim observes that order). -/
def calculateDiff (fromState toState : DesignState) : VersionDiffR :=
  let fromElements := jElements fromState.wireframe_json
  let toElements := jElements toState.wireframe_json
  let fromLookup := buildIdLookup fromElements
  let toLookup := buildIdLookup toElements
  let added := (toLookup.filter (fun kv => (jget fromLookup kv.1).isNone)).map (fun kv => kv.2)
  let removed := (fromLookup.filter (fun kv => (jget toLookup kv.1).isNone)).map (fun kv => kv.2)
  let modified := fromLookup.filterMap (fun kv =>
    match jget toLookup kv.1 with
    | none => none
    | some toElem => if pyEqJ kv.2 toElem then none else some (kv.1, kv.2, toElem))
  let allKeys := dedupKeepFirst []
    (fromState.metadata.map (fun p => p.1) ++ toState.metadata.map (fun p => p.1))
  let metadataChanges := allKeys.filterMap (fun k =>
    let fv := dget fromState.metadata k
    let tv := dget toState.metadata k
    if pyEqJ (fv.getD .null) (tv.getD .null) then none else some (k, fv, tv))
  let summaryParts :=
    (if added.isEmpty then [] else [toString added.length ++ " elements added"]) ++
    (if removed.isEmpty then [] else [toString removed.length ++ " elements removed"]) ++
    (if modified.isEmpty then [] else [toString modified.length ++ " elements modified"])
  { added := added
    removed := removed
    modified := modified
    metadata_changes := metadataChanges
    summary := if summaryParts.isEmpty then "No changes detected" else joinSep ", " summaryParts }

/-- `VersionManager.get_version_diff`: load both states, `None` when either
is missing. -/
def getVersionDiff (st : Store) (fromVersion toVersion : Nat) : Option VersionDiffR :=
  match getDesignState st (some fromVersion), getDesignState st (some toVersion) with
  | some f, some t => some (calculateDiff f t)
  | _, _ => none

/-- The multiset of (truthy) ids carried by a list of elements. -/
def idMultiset (es : List JVal) : Multiset JVal := (es.filterMap elemIdKey : List JVal)

/-- The claim's self-consistency equation for a diff: version a's id
multiset, minus the removed ids, plus the added ids, is version b's id
multiset (modified entries replace an id by itself). -/
def diffIdsConsistent (fromState toState : DesignState) : Prop :=
  let d := calculateDiff fromState toState
  idMultiset (jElements fromState.wireframe_json)
      - (d.removed.filterMap elemIdKey : List JVal)
      + (d.added.filterMap elemIdKey : List JVal)
    = idMultiset (jElements toState.wireframe_json)

instance (a b : DesignState) : Decidable (diffIdsConsistent a b) := by
  unfold diffIdsConsistent; infer_instance

/-! ## Concrete fixtures used by counterexamples and witnesses -/

/-- A wireframe whose single element carries styling that compression
drops. -/
def exWireframe : JVal :=
  .obj [("elements", .arr
    [.obj [("id", .str "e1"), ("type", .str "button"), ("style", .str "fancy")]])]

/-- A `changes` dict as the edit path passes it. -/
def exChanges : List (String × JVal) :=
  [("prompt", .str "add a button"), ("edit_type", .str "add"),
   ("target_elements", .arr [.str "e1"]), ("summary", .str "1 elements added"),
   ("processing_time_ms", .num 12)]

/-- The version-1 state the create path stores via `update_session_state`
(no version-metadata record is written for it). -/
def exStateV1 : DesignState :=
  { wireframe_json := .obj [("type", .str "container"), ("children", .arr [])]
    metadata := [("initial", .bool true)]
    created_at := 0
    version := 1 }

/-- A session store right after create: fresh metadata plus version 1. -/
def exStoreV1 : Store := (updateSessionState 0 (freshStore 0) exStateV1).1

def exCtxEntry : EditContext :=
  { prompt := "add a button", edit_type := "add", target_elements := ["button-1"]
    timestamp := 5, processing_time_ms := 3 }

def exStoreCtx : Store :=
  { meta := none, states := [], vmeta := [], context := [exCtxEntry] }

/-- Iterate `apply_edit` (same wireframe and changes each time, clock held
at 0) — the edit sequence of the claims' property P1. -/
def applyEditN : Nat → Store → Store
  | 0, st => st
  | n + 1, st => applyEditN n (applyEdit noFaults 0 st (.obj []) exChanges []).1

def currentVersionOf (st : Store) : Nat :=
  match st.meta with
  | some m => m.current_version
  | none => 0

/-! ## Basic lemmas about the dictionary operations -/

theorem dget_dset_self (fs : List (String × JVal)) (k : String) (v : JVal) :
    dget (dset fs k v) k = some v := by
  induction fs with
  | nil => simp [dset, dget]
  | cons p rest ih =>
    obtain ⟨k2, v2⟩ := p
    by_cases h : k2 = k <;> simp [dset, dget, h, ih]

theorem dget_dset_ne (fs : List (String × JVal)) (k k2 : String) (v : JVal)
    (h : k2 ≠ k) : dget (dset fs k v) k2 = dget fs k2 := by
  have h2 : ¬ (k = k2) := fun hh => h hh.symm
  induction fs with
  | nil => simp [dset, dget, h2]
  | cons p rest ih =>
    obtain ⟨k3, v3⟩ := p
    by_cases h3 : k3 = k
    · subst h3
      simp [dset, dget, h2]
    · by_cases h4 : k3 = k2 <;> simp [dset, dget, h3, h4, h, ih]

theorem nget_nset_self {α : Type} (l : List (Nat × α)) (k : Nat) (v : α) :
    nget (nset l k v) k = some v := by
  induction l with
  | nil => simp [nset, nget]
  | cons p rest ih =>
    obtain ⟨k2, v2⟩ := p
    by_cases h : k2 = k <;> simp [nset, nget, h, ih]

theorem nget_nset_ne {α : Type} (l : List (Nat × α)) (k k2 : Nat) (v : α)
    (h : k2 ≠ k) : nget (nset l k v) k2 = nget l k2 := by
  have h2 : ¬ (k = k2) := fun hh => h hh.symm
  induction l with
  | nil => simp [nset, nget, h2]
  | cons p rest ih =>
    obtain ⟨k3, v3⟩ := p
    by_cases h3 : k3 = k
    · subst h3
      simp [nset, nget, h2]
    · by_cases h4 : k3 = k2 <;> simp [nset, nget, h3, h4, h, ih]

theorem nset_map_fst {α : Type} (l : List (Nat × α)) (k : Nat) (v : α)
    (h : (nget l k).isSome) : (nset l k v).map Prod.fst = l.map Prod.fst := by
  induction l with
  | nil => simp [nget] at h
  | cons p rest ih =>
    obtain ⟨k2, v2⟩ := p
    by_cases h2 : k2 = k
    · simp [nset, h2]
    · simp [nget, h2] at h
      simp [nset, h2, ih h]

theorem nget_none_iff {α : Type} (l : List (Nat × α)) (k : Nat) :
    nget l k = none ↔ k ∉ l.map Prod.fst := by
  induction l with
  | nil => simp [nget]
  | cons p rest ih =>
    obtain ⟨k2, v2⟩ := p
    by_cases h : k2 = k
    · simp [nget, h]
    · have h2 : ¬ (k = k2) := fun hh => h hh.symm
      simp [nget, h, h2, ih]

theorem nset_length_le {α : Type} (l : List (Nat × α)) (k : Nat) (v : α) :
    (nset l k v).length ≤ l.length + 1 := by
  induction l with
  | nil => simp [nset]
  | cons p rest ih =>
    obtain ⟨k2, v2⟩ := p
    by_cases h : k2 = k <;> simp [nset, h] <;> omega

theorem insertNat_length (x : Nat) (l : List Nat) :
    (insertNat x l).length = l.length + 1 := by
  induction l with
  | nil => simp [insertNat]
  | cons y ys ih =>
    by_cases h : y < x <;> simp [insertNat, h, ih]

theorem sortNats_length (l : List Nat) : (sortNats l).length = l.length := by
  suffices h : ∀ acc : List Nat,
      (l.foldl (fun acc x => insertNat x acc) acc).length = acc.length + l.length by
    simpa using h []
  induction l with
  | nil => simp
  | cons x xs ih =>
    intro acc
    simp [List.foldl_cons, ih, insertNat_length]
    omega

/-! ## Effect lemmas for the compression loop and `create_version` -/

/-- Each loop iteration either leaves the accumulator unchanged or rewrites
exactly one existing state in place (and bumps the counter). -/
theorem compressStep_cases (acc : Nat × Store) (v : Nat) :
    compressStep acc v = acc ∨
    ∃ state, nget acc.2.states v = some state ∧
      compressStep acc v =
        (acc.1 + 1,
         markVersionCompressed (storeDesignState acc.2 v (createCompressedState state)) v) := by
  obtain ⟨count, st⟩ := acc
  cases hm : getVersionMetadata st v with
  | none =>
    cases hs : getDesignState st (some v) with
    | none => left; simp [compressStep, hm, hs]
    | some state =>
      right
      exact ⟨state, hs, by simp [compressStep, hm, hs]⟩
  | some mr =>
    by_cases hc : mr.compressed = true
    · left; simp [compressStep, hm, hc]
    · cases hs : getDesignState st (some v) with
      | none => left; simp [compressStep, hm, hc, hs]
      | some state =>
        right
        exact ⟨state, hs, by simp [compressStep, hm, hc, hs]⟩

theorem markVC_context (st : Store) (v : Nat) :
    (markVersionCompressed st v).context = st.context := by
  unfold markVersionCompressed
  cases nget st.vmeta v <;> rfl

theorem markVC_meta (st : Store) (v : Nat) :
    (markVersionCompressed st v).meta = st.meta := by
  unfold markVersionCompressed
  cases nget st.vmeta v <;> rfl

theorem markVC_states (st : Store) (v : Nat) :
    (markVersionCompressed st v).states = st.states := by
  unfold markVersionCompressed
  cases nget st.vmeta v <;> rfl

theorem storeDS_context (st : Store) (v : Nat) (s : DesignState) :
    (storeDesignState st v s).context = st.context := rfl

theorem storeDS_vmeta (st : Store) (v : Nat) (s : DesignState) :
    (storeDesignState st v s).vmeta = st.vmeta := rfl

theorem storeDS_states (st : Store) (v : Nat) (s : DesignState) :
    (storeDesignState st v s).states = nset st.states v { s with version := v } := rfl

theorem storeDS_meta (st : Store) (v : Nat) (s : DesignState) (m : SessionMeta)
    (h : st.meta = some m) :
    (storeDesignState st v s).meta = some { m with current_version := v } := by
  simp [storeDesignState, h]

theorem compressStep_context (acc : Nat × Store) (v : Nat) :
    (compressStep acc v).2.context = acc.2.context := by
  rcases compressStep_cases acc v with h | ⟨state, _, h⟩
  · simp [h]
  · rw [h]
    simp [markVC_context, storeDS_context]

theorem compressStep_states_fst (acc : Nat × Store) (v : Nat) :
    (compressStep acc v).2.states.map Prod.fst = acc.2.states.map Prod.fst := by
  rcases compressStep_cases acc v with h | ⟨state, hs, h⟩
  · simp [h]
  · have hsome : (nget acc.2.states v).isSome := by simp [hs]
    rw [h]
    simp [markVC_states, storeDS_states, nset_map_fst _ _ _ hsome]

theorem compressStep_meta (acc : Nat × Store) (v : Nat) (m : SessionMeta)
    (h : acc.2.meta = some m) :
    ∃ cv, (compressStep acc v).2.meta = some { m with current_version := cv } := by
  rcases compressStep_cases acc v with he | ⟨state, hs, he⟩
  · exact ⟨m.current_version, by simp [he, h]⟩
  · refine ⟨v, ?_⟩
    rw [he]
    simp [markVC_meta, storeDS_meta _ _ _ _ h]

/-- Keys other than `compressed` / `original_size` of a state's metadata,
its creation timestamp, and (for states keyed by their own version) its
version number survive one compression iteration. -/
theorem compressStep_state_at (acc : Nat × Store) (v v0 : Nat) (ds : DesignState)
    (h : nget acc.2.states v0 = some ds) :
    ∃ ds2, nget (compressStep acc v).2.states v0 = some ds2 ∧
      ds2.created_at = ds.created_at ∧
      (ds.version = v0 → ds2.version = v0) ∧
      ∀ key, key ≠ "compressed" → key ≠ "original_size" →
        dget ds2.metadata key = dget ds.metadata key := by
  rcases compressStep_cases acc v with he | ⟨state, hs, he⟩
  · exact ⟨ds, by simp [he, h], rfl, fun hv => hv, fun _ _ _ => rfl⟩
  · by_cases hv : v = v0
    · subst hv
      have hstate : state = ds := by
        have hs2 : some ds = some state := by rw [← h]; exact hs
        exact (Option.some_inj.mp hs2).symm
      subst hstate
      refine ⟨{ createCompressedState state with version := v }, ?_, ?_, ?_, ?_⟩
      · rw [he]
        simp [markVC_states, storeDS_states, nget_nset_self]
      · simp [createCompressedState]
      · intro _; rfl
      · intro key h1 h2
        simp [createCompressedState, dget_dset_ne _ _ _ _ h2, dget_dset_ne _ _ _ _ h1]
    · refine ⟨ds, ?_, rfl, fun hv2 => hv2, fun _ _ _ => rfl⟩
      rw [he]
      simp [markVC_states, storeDS_states, nget_nset_ne _ _ _ _ (fun hh => hv hh.symm), h]

theorem compressFold_context (vs : List Nat) (acc : Nat × Store) :
    (vs.foldl compressStep acc).2.context = acc.2.context := by
  induction vs generalizing acc with
  | nil => rfl
  | cons v rest ih => simp [List.foldl_cons, ih, compressStep_context]

theorem compressFold_states_fst (vs : List Nat) (acc : Nat × Store) :
    (vs.foldl compressStep acc).2.states.map Prod.fst = acc.2.states.map Prod.fst := by
  induction vs generalizing acc with
  | nil => rfl
  | cons v rest ih => simp [List.foldl_cons, ih, compressStep_states_fst]

theorem compressFold_meta (vs : List Nat) (acc : Nat × Store) (m : SessionMeta)
    (h : acc.2.meta = some m) :
    ∃ cv, (vs.foldl compressStep acc).2.meta = some { m with current_version := cv } := by
  induction vs generalizing acc m with
  | nil => exact ⟨m.current_version, by simp [h]⟩
  | cons v rest ih =>
    obtain ⟨cv1, h1⟩ := compressStep_meta acc v m h
    obtain ⟨cv2, h2⟩ := ih (compressStep acc v) _ h1
    exact ⟨cv2, by simpa using h2⟩

theorem compressFold_state_at (vs : List Nat) (acc : Nat × Store) (v0 : Nat)
    (ds : DesignState) (h : nget acc.2.states v0 = some ds) :
    ∃ ds2, nget (vs.foldl compressStep acc).2.states v0 = some ds2 ∧
      ds2.created_at = ds.created_at ∧
      (ds.version = v0 → ds2.version = v0) ∧
      ∀ key, key ≠ "compressed" → key ≠ "original_size" →
        dget ds2.metadata key = dget ds.metadata key := by
  induction vs generalizing acc ds with
  | nil => exact ⟨ds, h, rfl, fun hv => hv, fun _ _ _ => rfl⟩
  | cons v rest ih =>
    obtain ⟨ds1, h1, hc1, hv1, hk1⟩ := compressStep_state_at acc v v0 ds h
    obtain ⟨ds2, h2, hc2, hv2, hk2⟩ := ih (compressStep acc v) ds1 h1
    refine ⟨ds2, by simpa using h2, hc2.trans hc1, fun hv => hv2 (hv1 hv), ?_⟩
    intro key hk3 hk4
    exact (hk2 key hk3 hk4).trans (hk1 key hk3 hk4)

theorem compressOld_context (st : Store) (keep : Nat) :
    (compressOldVersions st keep).2.context = st.context := by
  by_cases hk : (getAllVersions st).length ≤ keep <;>
    simp [compressOldVersions, hk, compressFold_context]

theorem compressOld_states_fst (st : Store) (keep : Nat) :
    (compressOldVersions st keep).2.states.map Prod.fst = st.states.map Prod.fst := by
  by_cases hk : (getAllVersions st).length ≤ keep <;>
    simp [compressOldVersions, hk, compressFold_states_fst]

theorem compressOld_meta (st : Store) (keep : Nat) (m : SessionMeta)
    (h : st.meta = some m) :
    ∃ cv, (compressOldVersions st keep).2.meta = some { m with current_version := cv } := by
  by_cases hk : (getAllVersions st).length ≤ keep
  · exact ⟨m.current_version, by simp [compressOldVersions, hk, h]⟩
  · have h2 := compressFold_meta (((getAllVersions st).reverse).drop keep) (0, st) m h
    simpa [compressOldVersions, hk] using h2

theorem compressOld_state_at (st : Store) (keep : Nat) (v0 : Nat) (ds : DesignState)
    (h : nget st.states v0 = some ds) :
    ∃ ds2, nget (compressOldVersions st keep).2.states v0 = some ds2 ∧
      ds2.created_at = ds.created_at ∧
      (ds.version = v0 → ds2.version = v0) ∧
      ∀ key, key ≠ "compressed" → key ≠ "original_size" →
        dget ds2.metadata key = dget ds.metadata key := by
  by_cases hk : (getAllVersions st).length ≤ keep
  · exact ⟨ds, by simp [compressOldVersions, hk, h], rfl, fun hv => hv, fun _ _ _ => rfl⟩
  · have h2 := compressFold_state_at (((getAllVersions st).reverse).drop keep) (0, st) v0 ds h
    simpa [compressOldVersions, hk] using h2

theorem checkAndCompress_context (st : Store) :
    (checkAndCompressVersions st).context = st.context := by
  by_cases hk : maxVersionsPerSession < (getAllVersions st).length <;>
    simp [checkAndCompressVersions, hk, compressOld_context]

theorem checkAndCompress_meta (st : Store) (m : SessionMeta) (h : st.meta = some m) :
    ∃ cv, (checkAndCompressVersions st).meta = some { m with current_version := cv } := by
  by_cases hk : maxVersionsPerSession < (getAllVersions st).length
  · have h2 := compressOld_meta st compressionThreshold m h
    simpa [checkAndCompressVersions, hk] using h2
  · exact ⟨m.current_version, by simp [checkAndCompressVersions, hk, h]⟩

theorem checkAndCompress_state_at (st : Store) (v0 : Nat) (ds : DesignState)
    (h : nget st.states v0 = some ds) :
    ∃ ds2, nget (checkAndCompressVersions st).states v0 = some ds2 ∧
      ds2.created_at = ds.created_at ∧
      (ds.version = v0 → ds2.version = v0) ∧
      ∀ key, key ≠ "compressed" → key ≠ "original_size" →
        dget ds2.metadata key = dget ds.metadata key := by
  by_cases hk : maxVersionsPerSession < (getAllVersions st).length
  · have h2 := compressOld_state_at st compressionThreshold v0 ds h
    simpa [checkAndCompressVersions, hk] using h2
  · exact ⟨ds, by simp [checkAndCompressVersions, hk, h], rfl, fun hv => hv, fun _ _ _ => rfl⟩

/-- What a successful `create_version` guarantees: the returned number is
`current_version + 1`, the session metadata survives (up to the
`current_version` field, which compression may clobber), the context list
is untouched, and the state stored under the new number carries the
computed metadata entries — whatever the caller passed in `metadata`. -/
theorem createVersion_spec (now : Nat) (st : Store) (w : JVal)
    (ch md : List (String × JVal)) (m : SessionMeta) (h : st.meta = some m) :
    ∃ st2, createVersion now st w ch md = (st2, .ok (m.current_version + 1)) ∧
      (∃ cv, st2.meta = some { m with current_version := cv }) ∧
      st2.context = st.context ∧
      ∃ ds, nget st2.states (m.current_version + 1) = some ds ∧
        ds.created_at = now ∧ ds.version = m.current_version + 1 ∧
        dget ds.metadata "content_hash" = some (.str (calculateContentHash w)) ∧
        dget ds.metadata "changes" = some (.obj ch) ∧
        dget ds.metadata "edit_type" = some (jGetD ch "edit_type" (.str "modify")) ∧
        dget ds.metadata "target_elements" = some (jGetD ch "target_elements" (.arr [])) ∧
        dget ds.metadata "processing_time_ms" = some (jGetD ch "processing_time_ms" (.num 0)) := by
  unfold createVersion
  rw [h]
  simp only
  set newV := m.current_version + 1 with hnewV
  set dsMeta :=
    dset (dset (dset (dset (dset md
      "changes" (.obj ch))
      "content_hash" (.str (calculateContentHash w)))
      "edit_type" (jGetD ch "edit_type" (.str "modify")))
      "target_elements" (jGetD ch "target_elements" (.arr [])))
      "processing_time_ms" (jGetD ch "processing_time_ms" (.num 0)) with hdsMeta
  set designState : DesignState :=
    { wireframe_json := w, metadata := dsMeta, created_at := now, version := newV }
    with hds
  set st1 := storeDesignState st newV designState with hst1
  set st2 := storeVersionMetadata st1 newV designState ch with hst2
  refine ⟨checkAndCompressVersions st2, rfl, ?_, ?_, ?_⟩
  · have h2 : st2.meta = some { m with current_version := newV } := by
      simp [hst2, storeVersionMetadata, hst1, storeDesignState, h]
    obtain ⟨cv, hcv⟩ := checkAndCompress_meta st2 _ h2
    exact ⟨cv, by simpa using hcv⟩
  · rw [checkAndCompress_context]
    simp [hst2, storeVersionMetadata, hst1, storeDesignState]
  · have h0 : nget st2.states newV = some designState := by
      simp [hst2, storeVersionMetadata, hst1, storeDesignState, nget_nset_self, hds]
    obtain ⟨ds2, hg, hca, hver, hkeys⟩ := checkAndCompress_state_at st2 newV designState h0
    have k1 : dget dsMeta "processing_time_ms" = some (jGetD ch "processing_time_ms" (.num 0)) := by
      rw [hdsMeta]
      exact dget_dset_self _ _ _
    have k2 : dget dsMeta "target_elements" = some (jGetD ch "target_elements" (.arr [])) := by
      rw [hdsMeta, dget_dset_ne _ _ _ _ (by decide)]
      exact dget_dset_self _ _ _
    have k3 : dget dsMeta "edit_type" = some (jGetD ch "edit_type" (.str "modify")) := by
      rw [hdsMeta, dget_dset_ne _ _ _ _ (by decide), dget_dset_ne _ _ _ _ (by decide)]
      exact dget_dset_self _ _ _
    have k4 : dget dsMeta "content_hash" = some (.str (calculateContentHash w)) := by
      rw [hdsMeta, dget_dset_ne _ _ _ _ (by decide), dget_dset_ne _ _ _ _ (by decide),
        dget_dset_ne _ _ _ _ (by decide)]
      exact dget_dset_self _ _ _
    have k5 : dget dsMeta "changes" = some (.obj ch) := by
      rw [hdsMeta, dget_dset_ne _ _ _ _ (by decide), dget_dset_ne _ _ _ _ (by decide),
        dget_dset_ne _ _ _ _ (by decide), dget_dset_ne _ _ _ _ (by decide)]
      exact dget_dset_self _ _ _
    refine ⟨ds2, hg, by simp [hca, hds], hver (by simp [hds]), ?_, ?_, ?_, ?_, ?_⟩
    · rw [hkeys "content_hash" (by decide) (by decide)]
      simpa [hds] using k4
    · rw [hkeys "changes" (by decide) (by decide)]
      simpa [hds] using k5
    · rw [hkeys "edit_type" (by decide) (by decide)]
      simpa [hds] using k3
    · rw [hkeys "target_elements" (by decide) (by decide)]
      simpa [hds] using k2
    · rw [hkeys "processing_time_ms" (by decide) (by decide)]
      simpa [hds] using k1

/-! ## Hex digest facts -/

def hexCharsLower : List Char := (List.range 16).map hexDigit

theorem hexDigit_mem (k : Nat) (h : k < 16) : hexDigit k ∈ hexCharsLower :=
  List.mem_map.mpr ⟨k, List.mem_range.mpr h, rfl⟩

theorem strDataAppend (a b : String) : (a ++ b).data = a.data ++ b.data := rfl

theorem hex4_chars (n : Nat) : ∀ c ∈ (hex4 n).data, c ∈ hexCharsLower := by
  intro c hc
  have hm : ∀ k : Nat, hexDigit (k % 16) ∈ hexCharsLower :=
    fun k => hexDigit_mem _ (Nat.mod_lt _ (by norm_num))
  have hc2 : c ∈ [hexDigit ((n / 4096) % 16), hexDigit ((n / 256) % 16),
      hexDigit ((n / 16) % 16), hexDigit (n % 16)] := hc
  simp only [List.mem_cons, List.not_mem_nil, or_false] at hc2
  rcases hc2 with h | h | h | h <;> (rw [h]; exact hm _)

theorem hex4_length (n : Nat) : (hex4 n).length = 4 := rfl

theorem hex8_length (n : Nat) : (hex8 n).length = 8 := by
  simp [hex8, String.length_append, hex4_length]

theorem hex8_chars (n : Nat) : ∀ c ∈ (hex8 n).data, c ∈ hexCharsLower := by
  intro c hc
  rw [hex8, strDataAppend, List.mem_append] at hc
  rcases hc with h | h <;> exact hex4_chars _ c h

theorem sha256Hex_length (msg : List Nat) : (sha256Hex msg).length = 64 := by
  simp [sha256Hex, String.length_append, hex8_length]

theorem sha256Hex_chars (msg : List Nat) :
    ∀ c ∈ (sha256Hex msg).data, c ∈ hexCharsLower := by
  intro c hc
  simp only [sha256Hex, strDataAppend, List.mem_append] at hc
  rcases hc with ((((((h | h) | h) | h) | h) | h) | h) | h <;> exact hex8_chars _ c h

theorem sha256Hex_ne_empty (msg : List Nat) : sha256Hex msg ≠ "" := by
  intro h
  have h2 := congrArg String.length h
  rw [sha256Hex_length] at h2
  simp at h2

/-! ## Claim C5 -/

/-- Modelled from the spec: the content hash as the spec words it —
lowercase-hex SHA-256 of the UTF-8 bytes of the serialization with keys
sorted at every depth and **no insignificant whitespace**.  The code under
`_calculate_content_hash` does not implement this (it keeps the default
separators); this definition exists to be compared against it. -/
def specContentHash (w : JVal) : String := sha256Hex (utf8Bytes (specCanonicalJson w))

/-- C5 (counterexample): on the one-key document `{"a": 1}` the hash the
code computes differs from the SHA-256 of the whitespace-free canonical
serialization the claim describes, because `json.dumps` default separators
put a space after the colon. -/
theorem C5_counterexample :
    calculateContentHash (.obj [("a", .num 1)]) ≠
      specContentHash (.obj [("a", .num 1)]) := by
  decide

/-- C5 (amended): for every wireframe mapping the content hash is the
lowercase-hex SHA-256 digest (64 hex characters) of the UTF-8 bytes of
`json.dumps(wireframe_json, sort_keys=True)` — keys sorted
lexicographically at every depth, but with CPython's default separators,
which keep a space after every item comma and key colon. -/
theorem C5_content_hash_serialization (w : JVal) :
    calculateContentHash w = sha256Hex (utf8Bytes (pyDumpsSorted w)) ∧
    (calculateContentHash w).length = 64 ∧
    ∀ c ∈ (calculateContentHash w).data, c ∈ hexCharsLower :=
  ⟨rfl, sha256Hex_length _, sha256Hex_chars _⟩

/-! ## Claim C4 -/

def mC4 : SessionMeta :=
  { current_version := 3, created_at := 0, last_activity := 0
    status := .completed, total_edits := 2 }

def exStoreCompleted : Store :=
  { meta := some mC4, states := [], vmeta := [], context := [] }

/-- C4 (counterexample): a session whose stored status is `completed` and
whose `last_activity` lies more than the TTL in the past has its status
overwritten with `expired` by `get_session`'s lazy expiration — the
claimed "never overwrites a completed session's status" is false. -/
theorem C4_counterexample :
    exStoreCompleted.meta.map SessionMeta.status = some .completed ∧
    (getSession (sessionTTL + 1) exStoreCompleted).2.meta.map SessionMeta.status =
      some .expired := by
  constructor <;> decide

/-- C4 (amended): `get_session` marks any session whose idle time exceeds
the TTL as `expired` regardless of its current status (in particular a
`completed` session's status is overwritten with `expired`); a
non-expired read leaves the status unchanged and only bumps
`last_activity`, and `complete_session` on a readable session sets
`completed`. -/
theorem C4_status_transitions (now : Nat) (st : Store) (m : SessionMeta)
    (h : st.meta = some m) :
    (getSession now st).2.meta =
      some (if isSessionExpired now m then { m with status := .expired }
            else { m with last_activity := now }) ∧
    (getSession now st).1 = (if isSessionExpired now m then none else some m) ∧
    (isSessionExpired now m = false →
      (completeSession now st).1.meta =
        some { m with last_activity := now, status := .completed }) := by
  by_cases hexp : isSessionExpired now m
  · refine ⟨?_, ?_, fun hfalse => by rw [hexp] at hfalse; cases hfalse⟩ <;>
      simp [getSession, h, hexp, markSessionExpired, updateSessionActivity]
  · refine ⟨?_, ?_, fun _ => ?_⟩ <;>
      simp [completeSession, getSession, h, hexp, markSessionExpired, updateSessionActivity]

/-- Witness for C4 (amended) at a concrete completed, TTL-expired store. -/
theorem C4_witness :
    exStoreCompleted.meta = some mC4 ∧
    ((getSession (sessionTTL + 1) exStoreCompleted).2.meta =
      some (if isSessionExpired (sessionTTL + 1) mC4 then { mC4 with status := .expired }
            else { mC4 with last_activity := sessionTTL + 1 }) ∧
    (getSession (sessionTTL + 1) exStoreCompleted).1 =
      (if isSessionExpired (sessionTTL + 1) mC4 then none else some mC4) ∧
    (isSessionExpired (sessionTTL + 1) mC4 = false →
      (completeSession (sessionTTL + 1) exStoreCompleted).1.meta =
        some { mC4 with last_activity := sessionTTL + 1, status := .completed })) :=
  ⟨rfl, C4_status_transitions (sessionTTL + 1) exStoreCompleted mC4 rfl⟩

/-! ## Claim C9 -/

/-- C9 (counterexample): with `limit = 0`, `LRANGE context 0 (-1)` returns
the whole list, so a one-entry history comes back with more than `limit`
entries. -/
theorem C9_counterexample : ¬ ((getContextHistory exStoreCtx 0).length ≤ 0) := by
  decide

/-- C9 (amended): for every **positive** limit, `get_context_history`
returns exactly the first `limit` entries of the stored context list
(newest first), hence at most `limit` entries; `limit = 0` instead maps to
`LRANGE 0 -1` and returns the entire list. -/
theorem C9_context_history_limit (st : Store) (limit : Nat) (h : 1 ≤ limit) :
    getContextHistory st limit = st.context.take limit ∧
    (getContextHistory st limit).length ≤ limit := by
  have hmain : getContextHistory st limit = st.context.take limit := by
    unfold getContextHistory redisLrange
    have h0 : ¬ ((0 : Int) < 0) := by norm_num
    have h1 : ¬ (((limit : Int) - 1) < 0) := by omega
    simp only [if_neg h0, if_neg h1]
    by_cases h2 :
        (0 : Int) > min ((limit : Int) - 1) ((st.context.length : Int) - 1)
    · rw [if_pos h2]
      have hn0 : st.context.length = 0 := by omega
      have hnil : st.context = [] := List.length_eq_zero.mp hn0
      simp [hnil]
    · rw [if_neg h2]
      by_cases h3 : (limit : Int) - 1 ≤ (st.context.length : Int) - 1
      · rw [min_eq_left h3]
        have h4 : (((limit : Int) - 1) - 0 + 1).toNat = limit := by omega
        simp [h4]
      · rw [min_eq_right (le_of_not_le h3)]
        have h4 : (((st.context.length : Int) - 1) - 0 + 1).toNat = st.context.length := by
          omega
        have h5 : st.context.length ≤ limit := by omega
        simp [h4, List.take_of_length_le h5, List.take_length]
  exact ⟨hmain, by rw [hmain]; exact List.length_take_le _ _⟩

/-- Witness for C9 (amended) at `limit = 2` on the one-entry store. -/
theorem C9_witness :
    1 ≤ 2 ∧
    (getContextHistory exStoreCtx 2 = exStoreCtx.context.take 2 ∧
     (getContextHistory exStoreCtx 2).length ≤ 2) :=
  ⟨by decide, C9_context_history_limit exStoreCtx 2 (by decide)⟩

/-! ## Claim C10 -/

/-- C10 (confirmed): in every successful `create_version` the computed
metadata entries win over caller-supplied ones — the stored state's
`content_hash`, `changes`, `edit_type`, `target_elements` and
`processing_time_ms` come from the freshly computed hash and the `changes`
argument for **every** caller `metadata` dict, so a caller can never
override the stored content hash. -/
theorem C10_computed_metadata_wins (now : Nat) (st : Store) (w : JVal)
    (ch md : List (String × JVal)) (m : SessionMeta) (h : st.meta = some m) :
    (createVersion now st w ch md).2 = .ok (m.current_version + 1) ∧
    ∃ ds, nget (createVersion now st w ch md).1.states (m.current_version + 1) = some ds ∧
      dget ds.metadata "content_hash" = some (.str (calculateContentHash w)) ∧
      dget ds.metadata "changes" = some (.obj ch) ∧
      dget ds.metadata "edit_type" = some (jGetD ch "edit_type" (.str "modify")) ∧
      dget ds.metadata "target_elements" = some (jGetD ch "target_elements" (.arr [])) ∧
      dget ds.metadata "processing_time_ms" = some (jGetD ch "processing_time_ms" (.num 0)) := by
  obtain ⟨st2, he, _, _, ds, hg, _, _, k4, k5, k3, k2, k1⟩ :=
    createVersion_spec now st w ch md m h
  rw [he]
  exact ⟨rfl, ds, hg, k4, k5, k3, k2, k1⟩

/-- A caller metadata dict that tries to override the computed entries. -/
def exSpoofMeta : List (String × JVal) :=
  [("content_hash", .str "spoofed"), ("edit_type", .str "spoofed"),
   ("processing_time_ms", .num 9999)]

/-- Witness for C10 at a fresh store with a caller metadata dict that
attempts to override `content_hash` and friends. -/
theorem C10_witness :
    (freshStore 0).meta = some { current_version := 1, created_at := 0, last_activity := 0
                                 status := .active, total_edits := 0 } ∧
    ((createVersion 7 (freshStore 0) exWireframe exChanges exSpoofMeta).2 = .ok 2 ∧
     ∃ ds, nget (createVersion 7 (freshStore 0) exWireframe exChanges exSpoofMeta).1.states 2 =
             some ds ∧
       dget ds.metadata "content_hash" = some (.str (calculateContentHash exWireframe)) ∧
       dget ds.metadata "changes" = some (.obj exChanges) ∧
       dget ds.metadata "edit_type" = some (jGetD exChanges "edit_type" (.str "modify")) ∧
       dget ds.metadata "target_elements" = some (jGetD exChanges "target_elements" (.arr [])) ∧
       dget ds.metadata "processing_time_ms" =
         some (jGetD exChanges "processing_time_ms" (.num 0))) :=
  ⟨rfl, C10_computed_metadata_wins 7 (freshStore 0) exWireframe exChanges exSpoofMeta _ rfl⟩

/-! ## Claim C2 -/

theorem getAllVersions_length (st : Store) :
    (getAllVersions st).length = st.states.length := by
  simp [getAllVersions, sortNats_length]

theorem checkAndCompress_id (st : Store)
    (h : st.states.length ≤ maxVersionsPerSession) :
    checkAndCompressVersions st = st := by
  unfold checkAndCompressVersions
  rw [if_neg]
  rw [getAllVersions_length]
  omega

/-- C2 (counterexample): store one version through `create_version`, run
`compress_old_versions` over it; the compacted skeleton replaces
`wireframe_json` while `content_hash` is carried over unrecomputed, so
`verify_version_integrity` on the compressed version returns false — the
claimed "at every observable point including after compress" fails. -/
theorem C2_counterexample :
    verifyVersionIntegrity
      (compressOldVersions (createVersion 0 (freshStore 0) exWireframe exChanges []).1 0).2
      2 = false := by
  decide

/-- C2 (amended): the content-hash invariant holds at the moment of
storage: immediately after a successful `create_version` (that does not
trip the compaction threshold), recomputing the SHA-256 of the canonical
serialization of the stored `wireframe_json` equals the stored
`content_hash`, i.e. `verify_version_integrity` returns true for the new
version.  Compression deliberately keeps the stale hash while replacing
the wireframe, so compressed versions fail verification. -/
theorem C2_integrity_at_storage (now : Nat) (st : Store) (w : JVal)
    (ch md : List (String × JVal)) (m : SessionMeta) (h : st.meta = some m)
    (hlen : st.states.length < maxVersionsPerSession) :
    verifyVersionIntegrity (createVersion now st w ch md).1 (m.current_version + 1) = true := by
  unfold createVersion
  rw [h]
  simp only
  set newV := m.current_version + 1 with hnewV
  set dsMeta :=
    dset (dset (dset (dset (dset md
      "changes" (.obj ch))
      "content_hash" (.str (calculateContentHash w)))
      "edit_type" (jGetD ch "edit_type" (.str "modify")))
      "target_elements" (jGetD ch "target_elements" (.arr [])))
      "processing_time_ms" (jGetD ch "processing_time_ms" (.num 0)) with hdsMeta
  set designState : DesignState :=
    { wireframe_json := w, metadata := dsMeta, created_at := now, version := newV }
    with hds
  set st1 := storeDesignState st newV designState with hst1
  set st2 := storeVersionMetadata st1 newV designState ch with hst2
  have hid : checkAndCompressVersions st2 = st2 := by
    apply checkAndCompress_id
    have h1 : st2.states = nset st.states newV { designState with version := newV } := rfl
    rw [h1]
    have h2 := nset_length_le st.states newV { designState with version := newV }
    omega
  rw [hid]
  have hget : nget st2.states newV = some designState := by
    have h1 : st2.states = nset st.states newV { designState with version := newV } := rfl
    rw [h1, nget_nset_self]
  have k4 : dget designState.metadata "content_hash" =
      some (.str (calculateContentHash w)) := by
    rw [hds]
    simp only
    rw [hdsMeta, dget_dset_ne _ _ _ _ (by decide), dget_dset_ne _ _ _ _ (by decide),
      dget_dset_ne _ _ _ _ (by decide)]
    exact dget_dset_self _ _ _
  unfold verifyVersionIntegrity
  rw [show getDesignState st2 (some newV) = nget st2.states newV from rfl, hget]
  simp only [k4]
  have hne : calculateContentHash w ≠ "" := sha256Hex_ne_empty _
  have hwf : designState.wireframe_json = w := by rw [hds]
  simp [hwf, hne]

/-- Witness for C2 (amended): a fresh one-version-away store. -/
theorem C2_witness :
    (freshStore 0).meta = some { current_version := 1, created_at := 0, last_activity := 0
                                 status := .active, total_edits := 0 } ∧
    (freshStore 0).states.length < maxVersionsPerSession ∧
    verifyVersionIntegrity (createVersion 0 (freshStore 0) exWireframe exChanges []).1 2 = true :=
  ⟨rfl, by decide,
   C2_integrity_at_storage 0 (freshStore 0) exWireframe exChanges [] _ rfl (by decide)⟩

/-! ## Claim C3 -/

theorem updateActivity_states (now : Nat) (st : Store) :
    (updateSessionActivity now st).states = st.states := by
  unfold updateSessionActivity
  cases st.meta <;> rfl

theorem updateActivity_context (now : Nat) (st : Store) :
    (updateSessionActivity now st).context = st.context := by
  unfold updateSessionActivity
  cases st.meta <;> rfl

theorem updateActivity_meta (now : Nat) (st : Store) (m : SessionMeta)
    (h : st.meta = some m) :
    (updateSessionActivity now st).meta = some { m with last_activity := now } := by
  simp [updateSessionActivity, h]

theorem getSession_active (now : Nat) (st : Store) (m : SessionMeta)
    (h : st.meta = some m) (hexp : isSessionExpired now m = false) :
    getSession now st = (some m, updateSessionActivity now st) := by
  simp [getSession, h, hexp]

theorem isSessionExpired_fresh (now : Nat) (m : SessionMeta)
    (h : m.last_activity = now) : isSessionExpired now m = false := by
  simp [isSessionExpired, h]

theorem incrementEditCount_states (st : Store) :
    (incrementEditCount st).states = st.states := by
  unfold incrementEditCount
  cases st.meta <;> rfl

theorem addContextEntry_states (st : Store) (ctx : EditContext) :
    (addContextEntry st ctx).states = st.states := rfl

/-- Behavior of `apply_edit` on an active, unexpired session under
injected context-path storage faults: the version is stored under
`current_version + 1` in all cases; a failing `increment_edit_count` is
ignored and the edit reports success; a failing `add_context_entry` makes
`add_edit_context` raise `SessionManagerError`, which `apply_edit`
re-raises — without rolling back the stored version. -/
theorem applyEdit_spec (faults : Faults) (now : Nat) (st : Store) (w : JVal)
    (ch md : List (String × JVal)) (m : SessionMeta)
    (h : st.meta = some m) (hact : m.status = .active)
    (hexp : isSessionExpired now m = false) :
    (faults.addContextFails = true →
      (applyEdit faults now st w ch md).2 = .error "Failed to add context") ∧
    (faults.addContextFails = false →
      ∃ r, (applyEdit faults now st w ch md).2 = .ok r ∧
        r.new_version = m.current_version + 1 ∧ r.success = true) ∧
    ∃ ds, nget (applyEdit faults now st w ch md).1.states (m.current_version + 1) = some ds := by
  have hm1 : (updateSessionActivity now st).meta = some { m with last_activity := now } :=
    updateActivity_meta now st m h
  obtain ⟨st2, hcv, ⟨cv, hmeta2⟩, hctx2, ds, hds, _⟩ :=
    createVersion_spec now (updateSessionActivity now st) w ch md
      { m with last_activity := now } hm1
  have hmeta2b : st2.meta =
      some { m with last_activity := now, current_version := cv } := by
    simpa using hmeta2
  have hexp2 : isSessionExpired now { m with last_activity := now, current_version := cv } =
      false := isSessionExpired_fresh now _ rfl
  have hgs2 : getSession now st2 = (some _, updateSessionActivity now st2) :=
    getSession_active now st2 _ hmeta2b hexp2
  have hnact : ¬ (m.status ≠ SessionStatus.active) := by simp [hact]
  by_cases hf : faults.addContextFails = true
  · have haec : ∀ ctx, addEditContext faults now st2 ctx =
        (updateSessionActivity now st2, .error "Failed to add context") := by
      intro ctx
      unfold addEditContext
      rw [hgs2]
      simp [hf]
    refine ⟨?_, ?_, ?_⟩
    · intro _
      unfold applyEdit
      rw [getSession_active now st m h hexp]
      dsimp only
      rw [if_neg hnact, hcv]
      dsimp only
      rw [haec _]
    · intro hff
      rw [hff] at hf
      cases hf
    · refine ⟨ds, ?_⟩
      unfold applyEdit
      rw [getSession_active now st m h hexp]
      dsimp only
      rw [if_neg hnact, hcv]
      dsimp only
      rw [haec _]
      dsimp only
      rw [updateActivity_states]
      exact hds
  · have hf2 : faults.addContextFails = false := by
      revert hf
      cases faults.addContextFails <;> simp
    have haec : ∀ ctx, addEditContext faults now st2 ctx =
        ((if faults.incrementFails then addContextEntry (updateSessionActivity now st2) ctx
          else incrementEditCount (addContextEntry (updateSessionActivity now st2) ctx)),
         .ok ()) := by
      intro ctx
      unfold addEditContext
      rw [hgs2]
      simp only [hf2, Bool.false_eq_true, if_false]
    refine ⟨?_, ?_, ?_⟩
    · intro hff
      exact absurd hff hf
    · intro _
      unfold applyEdit
      rw [getSession_active now st m h hexp]
      dsimp only
      rw [if_neg hnact, hcv]
      dsimp only
      rw [haec _]
      dsimp only
      exact ⟨_, rfl, rfl, rfl⟩
    · refine ⟨ds, ?_⟩
      unfold applyEdit
      rw [getSession_active now st m h hexp]
      dsimp only
      rw [if_neg hnact, hcv]
      dsimp only
      rw [haec _]
      dsimp only
      cases hb : faults.incrementFails <;>
        simp only [Bool.false_eq_true, if_false, if_true, eq_self_iff_true,
          incrementEditCount_states, addContextEntry_states, updateActivity_states] <;>
        exact hds

/-- C3 (counterexample): with `add_context_entry` failing after a
successful version store, `apply_edit` does **not** return a successful
EditResult — the `SessionManagerError` raised by `add_edit_context`
propagates to the caller. -/
theorem C3_counterexample :
    (applyEdit ⟨true, false⟩ 0 exStoreV1 exWireframe exChanges []).2 =
      .error "Failed to add context" := by
  rfl

/-- C3 (amended): after `create_version` succeeds, a failing
`increment_edit_count` is only ignored (the edit still reports success),
but a failing `add_context_entry` makes `apply_edit` raise
`SessionManagerError` to the caller; in both cases the stored version is
not rolled back. -/
theorem C3_context_failure_behavior (now : Nat) (st : Store) (w : JVal)
    (ch md : List (String × JVal)) (m : SessionMeta)
    (h : st.meta = some m) (hact : m.status = .active)
    (hexp : isSessionExpired now m = false) :
    (∃ r, (applyEdit ⟨false, true⟩ now st w ch md).2 = .ok r ∧
        r.new_version = m.current_version + 1 ∧ r.success = true) ∧
    (∃ ds, nget (applyEdit ⟨false, true⟩ now st w ch md).1.states (m.current_version + 1) =
        some ds) ∧
    (applyEdit ⟨true, false⟩ now st w ch md).2 = .error "Failed to add context" ∧
    (∃ ds, nget (applyEdit ⟨true, false⟩ now st w ch md).1.states (m.current_version + 1) =
        some ds) := by
  obtain ⟨_, hok, hstored⟩ := applyEdit_spec ⟨false, true⟩ now st w ch md m h hact hexp
  obtain ⟨herr, _, hstored2⟩ := applyEdit_spec ⟨true, false⟩ now st w ch md m h hact hexp
  exact ⟨hok rfl, hstored, herr rfl, hstored2⟩

def mV1 : SessionMeta :=
  { current_version := 1, created_at := 0, last_activity := 0
    status := .active, total_edits := 0 }

/-- Witness for C3 (amended) on a fresh session holding version 1. -/
theorem C3_witness :
    exStoreV1.meta = some mV1 ∧
    ((∃ r, (applyEdit ⟨false, true⟩ 0 exStoreV1 exWireframe exChanges []).2 = .ok r ∧
        r.new_version = 2 ∧ r.success = true) ∧
     (∃ ds, nget (applyEdit ⟨false, true⟩ 0 exStoreV1 exWireframe exChanges []).1.states 2 =
        some ds) ∧
     (applyEdit ⟨true, false⟩ 0 exStoreV1 exWireframe exChanges []).2 =
        .error "Failed to add context" ∧
     (∃ ds, nget (applyEdit ⟨true, false⟩ 0 exStoreV1 exWireframe exChanges []).1.states 2 =
        some ds)) :=
  ⟨by decide,
   C3_context_failure_behavior 0 exStoreV1 exWireframe exChanges [] mV1 (by decide) rfl rfl⟩

/-! ## Claim C7 -/

/-- A version has a fully parseable version-metadata record. -/
def fullV (st : Store) (v : Nat) : Bool :=
  match nget st.vmeta v with
  | some hrec => hrec.full
  | none => false

/-- A version the compression loop will leave untouched: its record parses
and it is marked compressed, or its state key is gone. -/
def goodV (st : Store) (v : Nat) : Bool :=
  match nget st.vmeta v with
  | some hrec => hrec.full && (hrec.compressed || (nget st.states v).isNone)
  | none => false

theorem fullV_congr (st st2 : Store) (v : Nat)
    (h : nget st2.vmeta v = nget st.vmeta v) : fullV st2 v = fullV st v := by
  unfold fullV
  rw [h]

theorem goodV_congr (st st2 : Store) (v : Nat)
    (h1 : nget st2.vmeta v = nget st.vmeta v)
    (h2 : nget st2.states v = nget st.states v) : goodV st2 v = goodV st v := by
  unfold goodV
  rw [h1, h2]

theorem markVC_vmeta_ne (st : Store) (v v0 : Nat) (h : v0 ≠ v) :
    nget (markVersionCompressed st v).vmeta v0 = nget st.vmeta v0 := by
  unfold markVersionCompressed
  cases nget st.vmeta v <;> simp [nget_nset_ne _ _ _ _ h]

/-- The loop body skips a version whose record is parseable and marked
compressed (or whose state is absent). -/
theorem compressStep_skip (acc : Nat × Store) (v : Nat)
    (hg : goodV acc.2 v = true) : compressStep acc v = acc := by
  obtain ⟨count, st⟩ := acc
  unfold goodV at hg
  cases hget : nget st.vmeta v with
  | none =>
    rw [hget] at hg
    dsimp only at hg
    cases hg
  | some hrec =>
    rw [hget] at hg
    simp only [Bool.and_eq_true, Bool.or_eq_true] at hg
    obtain ⟨hfull, hdisj⟩ := hg
    have hvm : getVersionMetadata st v = some hrec := by
      simp [getVersionMetadata, hget, hfull]
    rcases hdisj with hc | hn
    · simp [compressStep, hvm, hc]
    · by_cases hc : hrec.compressed = true
      · simp [compressStep, hvm, hc]
      · have hn2 : getDesignState st (some v) = none := Option.isNone_iff_eq_none.mp hn
        simp [compressStep, hvm, hc, hn2]

theorem compressFold_skip (vs : List Nat) (acc : Nat × Store)
    (hg : ∀ v ∈ vs, goodV acc.2 v = true) : vs.foldl compressStep acc = acc := by
  induction vs with
  | nil => rfl
  | cons v rest ih =>
    rw [List.foldl_cons, compressStep_skip acc v (hg v (by simp))]
    exact ih fun v2 hv2 => hg v2 (by simp [hv2])

/-- Processing a version with a parseable record marks it compressed (or
finds nothing to do): afterwards the loop would skip it. -/
theorem compressStep_establishes (acc : Nat × Store) (v : Nat)
    (hf : fullV acc.2 v = true) : goodV (compressStep acc v).2 v = true := by
  obtain ⟨count, st⟩ := acc
  unfold fullV at hf
  cases hget : nget st.vmeta v with
  | none =>
    rw [hget] at hf
    dsimp only at hf
    cases hf
  | some hrec =>
    rw [hget] at hf
    dsimp only at hf
    have hvm : getVersionMetadata st v = some hrec := by
      simp [getVersionMetadata, hget, hf]
    by_cases hc : hrec.compressed = true
    · have he : compressStep (count, st) v = (count, st) := by
        simp [compressStep, hvm, hc]
      rw [he]
      unfold goodV
      rw [hget]
      simp [hf, hc]
    · cases hs : nget st.states v with
      | none =>
        have hn2 : getDesignState st (some v) = none := hs
        have he : compressStep (count, st) v = (count, st) := by
          simp [compressStep, hvm, hc, hn2]
        rw [he]
        unfold goodV
        rw [hget, hs]
        simp [hf]
      | some state =>
        have hs2 : getDesignState st (some v) = some state := hs
        have he : compressStep (count, st) v =
            (count + 1,
             markVersionCompressed (storeDesignState st v (createCompressedState state)) v) := by
          simp [compressStep, hvm, hc, hs2]
        rw [he]
        unfold goodV
        have hvm2 :
            (markVersionCompressed (storeDesignState st v (createCompressedState state)) v).vmeta =
              nset st.vmeta v { hrec with compressed := true } := by
          unfold markVersionCompressed
          rw [storeDS_vmeta, hget]
        rw [hvm2, nget_nset_self]
        simp [hf]

theorem compressStep_preserves_full (acc : Nat × Store) (v v0 : Nat)
    (hf : fullV acc.2 v0 = true) : fullV (compressStep acc v).2 v0 = true := by
  rcases compressStep_cases acc v with he | ⟨state, hs, he⟩
  · rw [he]; exact hf
  · rw [he]
    by_cases hv : v0 = v
    · subst hv
      unfold fullV at hf ⊢
      cases hget : nget acc.2.vmeta v0 with
      | none =>
        rw [hget] at hf
        dsimp only at hf
        cases hf
      | some hrec =>
        rw [hget] at hf
        dsimp only at hf
        have hvm2 :
            (markVersionCompressed (storeDesignState acc.2 v0 (createCompressedState state))
              v0).vmeta = nset acc.2.vmeta v0 { hrec with compressed := true } := by
          unfold markVersionCompressed
          rw [storeDS_vmeta, hget]
        rw [hvm2, nget_nset_self]
        dsimp only
        exact hf
    · rw [fullV_congr acc.2 _ v0 (by rw [markVC_vmeta_ne _ _ _ hv, storeDS_vmeta])]
      exact hf

theorem compressStep_preserves_good (acc : Nat × Store) (v v0 : Nat)
    (hg : goodV acc.2 v0 = true) : goodV (compressStep acc v).2 v0 = true := by
  by_cases hv : v0 = v
  · subst hv
    have hf : fullV acc.2 v0 = true := by
      unfold goodV at hg
      unfold fullV
      cases hget : nget acc.2.vmeta v0 with
      | none =>
        rw [hget] at hg
        dsimp only at hg
        cases hg
      | some hrec =>
        rw [hget] at hg
        dsimp only at hg
        dsimp only
        simp only [Bool.and_eq_true] at hg
        exact hg.1
    exact compressStep_establishes acc v0 hf
  · rcases compressStep_cases acc v with he | ⟨state, hs, he⟩
    · rw [he]; exact hg
    · rw [he]
      have h1 :
          nget (markVersionCompressed (storeDesignState acc.2 v (createCompressedState state))
            v).vmeta v0 = nget acc.2.vmeta v0 := by
        rw [markVC_vmeta_ne _ _ _ hv, storeDS_vmeta]
      have h2 :
          nget (markVersionCompressed (storeDesignState acc.2 v (createCompressedState state))
            v).states v0 = nget acc.2.states v0 := by
        rw [markVC_states, storeDS_states, nget_nset_ne _ _ _ _ hv]
      rw [goodV_congr acc.2 _ v0 h1 h2]
      exact hg

theorem compressFold_preserves_good (vs : List Nat) (acc : Nat × Store) (v0 : Nat)
    (hg : goodV acc.2 v0 = true) : goodV ((vs.foldl compressStep acc)).2 v0 = true := by
  induction vs generalizing acc with
  | nil => exact hg
  | cons v rest ih =>
    rw [List.foldl_cons]
    exact ih _ (compressStep_preserves_good acc v v0 hg)

theorem compressFold_establishes (vs : List Nat) (acc : Nat × Store)
    (hf : ∀ v ∈ vs, fullV acc.2 v = true) :
    ∀ v ∈ vs, goodV ((vs.foldl compressStep acc)).2 v = true := by
  induction vs generalizing acc with
  | nil => intro v hv; cases hv
  | cons v rest ih =>
    intro v2 hv2
    rw [List.foldl_cons]
    rcases List.mem_cons.mp hv2 with hv2 | hv2
    · subst hv2
      exact compressFold_preserves_good rest _ v2
        (compressStep_establishes acc v2 (hf v2 (by simp)))
    · exact ih (compressStep acc v)
        (fun v3 hv3 => compressStep_preserves_full acc v v3 (hf v3 (by simp [hv3]))) v2 hv2

theorem getAllVersions_fold (vs : List Nat) (acc : Nat × Store) :
    getAllVersions (vs.foldl compressStep acc).2 = getAllVersions acc.2 := by
  simp [getAllVersions, compressFold_states_fst]

/-- C7 (counterexample): a real session (version 1 stored by
`update_session_state`, so it has no version-metadata record; version 2 by
`create_version`) compacted with `keep_recent = 1`: the first pass
compresses version 1, but the partial metadata hash left by
`_mark_version_compressed` cannot be parsed back, so a second pass
re-compresses it and reports 1, not 0. -/
theorem C7_counterexample :
    (compressOldVersions (createVersion 5 exStoreV1 exWireframe exChanges []).1 1).1 = 1 ∧
    (compressOldVersions
      (compressOldVersions (createVersion 5 exStoreV1 exWireframe exChanges []).1 1).2 1).1 = 1 := by
  constructor <;> decide

/-- C7 (amended): compaction preserves each stored state's version number
and creation timestamp; the loop body skips any version whose
version-metadata record parses and is marked `compressed = true`; and a
second compaction pass compresses 0 additional versions **provided** every
version beyond the keep-window has a fully parseable version-metadata
record (as `create_version` writes).  A version lacking one — such as
version 1, stored by `update_session_state` — is re-compressed on every
pass, because the partial hash that `_mark_version_compressed` leaves
behind fails to parse. -/
theorem C7_compression_idempotent (st : Store) (keep : Nat)
    (hfull : ∀ v ∈ ((getAllVersions st).reverse.drop keep), fullV st v = true) :
    (∀ v0 ds, nget st.states v0 = some ds → ds.version = v0 →
      ∃ ds2, nget (compressOldVersions st keep).2.states v0 = some ds2 ∧
        ds2.version = v0 ∧ ds2.created_at = ds.created_at) ∧
    (∀ (acc : Nat × Store) (v : Nat) (hrec : VMetaHash),
      nget acc.2.vmeta v = some hrec → hrec.full = true → hrec.compressed = true →
      compressStep acc v = acc) ∧
    (compressOldVersions (compressOldVersions st keep).2 keep).1 = 0 := by
  refine ⟨?_, ?_, ?_⟩
  · intro v0 ds hds hver
    obtain ⟨ds2, hg, hca, hv, _⟩ := compressOld_state_at st keep v0 ds hds
    exact ⟨ds2, hg, hv hver, hca⟩
  · intro acc v hrec hget hfull2 hcomp
    apply compressStep_skip
    unfold goodV
    rw [hget]
    simp [hfull2, hcomp]
  · by_cases hk : (getAllVersions st).length ≤ keep
    · have h1 : compressOldVersions st keep = (0, st) := by
        simp [compressOldVersions, hk]
      rw [h1]
      simp [compressOldVersions, hk]
    · have h1 : compressOldVersions st keep =
          ((getAllVersions st).reverse.drop keep).foldl compressStep (0, st) := by
        simp [compressOldVersions, hk]
      have hvers2 : getAllVersions
          (((getAllVersions st).reverse.drop keep).foldl compressStep (0, st)).2 =
          getAllVersions st := getAllVersions_fold _ _
      have hgood := compressFold_establishes ((getAllVersions st).reverse.drop keep) (0, st)
        (fun v hv => hfull v hv)
      rw [h1]
      have h2 : compressOldVersions
          (((getAllVersions st).reverse.drop keep).foldl compressStep (0, st)).2 keep =
          ((getAllVersions st).reverse.drop keep).foldl compressStep
            (0, (((getAllVersions st).reverse.drop keep).foldl compressStep (0, st)).2) := by
        simp only [compressOldVersions, hvers2]
        rw [if_neg hk]
      rw [h2, compressFold_skip]
      intro v hv
      exact hgood v hv

/-- A two-`create_version` store: both stored versions carry full
version-metadata records. -/
def exStoreTwoCV : Store :=
  (createVersion 1 (createVersion 0 (freshStore 0) exWireframe exChanges []).1
    exWireframe exChanges []).1

/-- Witness for C7 (amended) on a store whose versions all have full
records: the second pass compresses 0. -/
theorem C7_witness :
    (∀ v ∈ ((getAllVersions exStoreTwoCV).reverse.drop 0), fullV exStoreTwoCV v = true) ∧
    ((∀ v0 ds, nget exStoreTwoCV.states v0 = some ds → ds.version = v0 →
      ∃ ds2, nget (compressOldVersions exStoreTwoCV 0).2.states v0 = some ds2 ∧
        ds2.version = v0 ∧ ds2.created_at = ds.created_at) ∧
     (∀ (acc : Nat × Store) (v : Nat) (hrec : VMetaHash),
       nget acc.2.vmeta v = some hrec → hrec.full = true → hrec.compressed = true →
       compressStep acc v = acc) ∧
     (compressOldVersions (compressOldVersions exStoreTwoCV 0).2 0).1 = 0) :=
  ⟨by decide, C7_compression_idempotent exStoreTwoCV 0 (by decide)⟩

/-! ## Claim C6 -/

/-- Reference resolution on the prompt `"make it bigger"` with exactly one
context entry targeting `button-1`: the pronoun rule fires (0.6), no
element-type pattern matches the prompt, so the overall result is that one
target at confidence 6/10 — for **any** current design. -/
theorem resolve_make_it_bigger (state : DesignState) (e : EditContext)
    (hT : e.target_elements = ["button-1"]) :
    resolveReferences "make it bigger" state [e] = (["button-1"], ⟨6, 10⟩) := by
  have hpron : (pronounPatterns.any fun r => reSearch r (pyLower "make it bigger")) = true := by
    decide
  have hmatches : elementTypePrefixes.foldl
      (fun acc pre => acc ++ findallPre pre .wd (pyLower "make it bigger")) [] =
      ([] : List String) := by decide
  have hrecent : getRecentTargetElements [e] = ["button-1"] := by
    simp [getRecentTargetElements, sortByTsDesc, insertByTsDesc, hT, dedupKeepFirst]
  simp only [resolveReferences, hpron, hmatches, hrecent]
  simp

/-- C6 (counterexample): on the pronoun-resolution scenario the engine
returns `needs_clarification = true` (confidence 0.6 is **below** the 0.7
threshold), not `false` as claimed. -/
theorem C6_counterexample :
    (processEditWithContext exStateV1 "make it bigger" [exCtxEntry]).needs_clarification =
      true := by
  decide

/-- C6 (amended): for the prompt `"make it bigger"` against any current
design state with a context history of one entry targeting `button-1`,
`process_edit_with_context` returns `edit_intent = change_size`,
`edit_type = style`, `target_elements = ["button-1"]`,
`confidence_score = 0.6` — and, since 0.6 < CONFIDENCE_THRESHOLD = 0.7,
`needs_clarification = true` (not false). -/
theorem C6_pronoun_resolution (state : DesignState) (e : EditContext)
    (hT : e.target_elements = ["button-1"]) :
    (processEditWithContext state "make it bigger" [e]).edit_intent = .change_size ∧
    (processEditWithContext state "make it bigger" [e]).edit_type = .style ∧
    (processEditWithContext state "make it bigger" [e]).target_elements = ["button-1"] ∧
    fracEq (processEditWithContext state "make it bigger" [e]).confidence_score ⟨6, 10⟩ =
      true ∧
    (processEditWithContext state "make it bigger" [e]).needs_clarification = true := by
  have hres := resolve_make_it_bigger state e hT
  have hint : extractEditIntent "make it bigger" = .change_size := by decide
  refine ⟨?_, ?_, ?_, ?_, ?_⟩ <;>
    simp [processEditWithContext, hres, hint, intentToEditType, fracLt, fracEq,
      confidenceThreshold]

/-- Witness for C6 (amended) at a concrete state and context entry. -/
theorem C6_witness :
    exCtxEntry.target_elements = ["button-1"] ∧
    ((processEditWithContext exStateV1 "make it bigger" [exCtxEntry]).edit_intent =
        .change_size ∧
     (processEditWithContext exStateV1 "make it bigger" [exCtxEntry]).edit_type = .style ∧
     (processEditWithContext exStateV1 "make it bigger" [exCtxEntry]).target_elements =
        ["button-1"] ∧
     fracEq (processEditWithContext exStateV1 "make it bigger" [exCtxEntry]).confidence_score
        ⟨6, 10⟩ = true ∧
     (processEditWithContext exStateV1 "make it bigger" [exCtxEntry]).needs_clarification =
        true) :=
  ⟨rfl, C6_pronoun_resolution exStateV1 exCtxEntry rfl⟩

/-! ## Claim C8 -/

/-- Version-a state whose two elements share the id `"e"` (C8
counterexample fixture). -/
def exFromSt : DesignState :=
  { wireframe_json := .obj [("elements", .arr
      [.obj [("id", .str "e"), ("type", .str "b")], .obj [("id", .str "e"), ("type", .str "b")]])]
    metadata := [], created_at := 0, version := 1 }

/-- Version-b state with a single `"e"` element (C8 counterexample
fixture). -/
def exToSt : DesignState :=
  { wireframe_json := .obj [("elements", .arr [.obj [("id", .str "e"), ("type", .str "b")]])]
    metadata := [], created_at := 0, version := 2 }

theorem jget_none_iff (l : List (JVal × JVal)) (k : JVal) :
    jget l k = none ↔ k ∉ l.map Prod.fst := by
  induction l with
  | nil => simp [jget]
  | cons p rest ih =>
    obtain ⟨k2, v2⟩ := p
    by_cases h : k2 = k
    · simp [jget, h]
    · have h2 : ¬ (k = k2) := fun hh => h hh.symm
      simp [jget, h, h2, ih]

theorem jget_mem (l : List (JVal × JVal)) (k v : JVal) (h : jget l k = some v) :
    (k, v) ∈ l := by
  induction l with
  | nil => cases h
  | cons p rest ih =>
    obtain ⟨k2, v2⟩ := p
    by_cases h2 : k2 = k
    · subst h2
      simp [jget] at h
      simp [h]
    · simp [jget, h2] at h
      simp [ih h]

theorem jset_mem (l : List (JVal × JVal)) (k v : JVal) (p : JVal × JVal)
    (h : p ∈ jset l k v) : p ∈ l ∨ p = (k, v) := by
  induction l with
  | nil => exact Or.inr (by simpa [jset] using h)
  | cons q rest ih =>
    obtain ⟨k2, v2⟩ := q
    by_cases h2 : k2 = k
    · subst h2
      simp [jset] at h
      rcases h with h | h
      · exact Or.inr (by simp [h])
      · exact Or.inl (by simp [h])
    · simp [jset, h2] at h
      rcases h with h | h
      · exact Or.inl (by simp [h])
      · rcases ih h with h3 | h3
        · exact Or.inl (by simp [h3])
        · exact Or.inr h3

theorem jset_append (l : List (JVal × JVal)) (k v : JVal) (h : jget l k = none) :
    jset l k v = l ++ [(k, v)] := by
  induction l with
  | nil => rfl
  | cons q rest ih =>
    obtain ⟨k2, v2⟩ := q
    by_cases h2 : k2 = k
    · simp [jget, h2] at h
    · simp [jget, h2] at h
      simp [jset, h2, ih h]

theorem jget_append_none (l1 l2 : List (JVal × JVal)) (k : JVal)
    (h : jget l1 k = none) : jget (l1 ++ l2) k = jget l2 k := by
  induction l1 with
  | nil => rfl
  | cons q rest ih =>
    obtain ⟨k2, v2⟩ := q
    by_cases h2 : k2 = k
    · simp [jget, h2] at h
    · simp [jget, h2] at h ⊢
      exact ih h

theorem lookupGo_mem (es : List JVal) (acc : List (JVal × JVal)) (p : JVal × JVal)
    (hp : p ∈ lookupGo acc es) : p ∈ acc ∨ elemIdKey p.2 = some p.1 := by
  induction es generalizing acc with
  | nil => exact Or.inl hp
  | cons e rest ih =>
    simp only [lookupGo] at hp
    cases hid : elemIdKey e with
    | none =>
      rw [hid] at hp
      exact ih _ hp
    | some i =>
      rw [hid] at hp
      rcases ih _ hp with hmem | hgood
      · rcases jset_mem _ _ _ _ hmem with h2 | h2
        · exact Or.inl h2
        · subst h2
          exact Or.inr hid
      · exact Or.inr hgood

theorem buildIdLookup_pairs (es : List JVal) :
    ∀ p ∈ buildIdLookup es, elemIdKey p.2 = some p.1 := by
  intro p hp
  rcases lookupGo_mem es [] p hp with h | h
  · cases h
  · exact h

/-- The id-keyed element map of the claim: each element that carries a
truthy id becomes the (id, element) binding, in order. -/
def idPairs (es : List JVal) : List (JVal × JVal) :=
  es.filterMap (fun e => (elemIdKey e).map (fun i => (i, e)))

theorem idPairs_map_fst (es : List JVal) :
    (idPairs es).map Prod.fst = es.filterMap elemIdKey := by
  induction es with
  | nil => rfl
  | cons e rest ih => cases hid : elemIdKey e <;> simp [idPairs, List.filterMap_cons, hid] <;>
      simpa [idPairs] using ih

theorem lookupGo_eq (es : List JVal) :
    ∀ acc : List (JVal × JVal),
    (es.filterMap elemIdKey).Nodup →
    (∀ i ∈ es.filterMap elemIdKey, jget acc i = none) →
    lookupGo acc es = acc ++ idPairs es := by
  induction es with
  | nil =>
    intro acc _ _
    simp [lookupGo, idPairs]
  | cons e rest ih =>
    intro acc hnd hdisj
    simp only [lookupGo]
    cases hid : elemIdKey e with
    | none =>
      have h1 : (e :: rest).filterMap elemIdKey = rest.filterMap elemIdKey := by
        simp [List.filterMap_cons, hid]
      rw [h1] at hnd hdisj
      rw [ih acc hnd hdisj]
      simp [idPairs, List.filterMap_cons, hid]
    | some i =>
      have h1 : (e :: rest).filterMap elemIdKey = i :: rest.filterMap elemIdKey := by
        simp [List.filterMap_cons, hid]
      rw [h1] at hnd hdisj
      obtain ⟨hni, hnd2⟩ := List.nodup_cons.mp hnd
      have hacc_i : jget acc i = none := hdisj i (by simp)
      change lookupGo (jset acc i e) rest = acc ++ idPairs (e :: rest)
      rw [jset_append _ _ _ hacc_i]
      have hdisj2 : ∀ i2 ∈ rest.filterMap elemIdKey, jget (acc ++ [(i, e)]) i2 = none := by
        intro i2 hi2
        rw [jget_append_none _ _ _ (hdisj i2 (by simp [hi2]))]
        have hne : ¬ (i = i2) := fun hh => hni (hh ▸ hi2)
        simp [jget, hne]
      rw [ih (acc ++ [(i, e)]) hnd2 hdisj2]
      simp [idPairs, List.filterMap_cons, hid]

theorem buildIdLookup_eq (es : List JVal) (hnd : (es.filterMap elemIdKey).Nodup) :
    buildIdLookup es = idPairs es := by
  have h := lookupGo_eq es [] hnd (fun i _ => rfl)
  simpa [buildIdLookup] using h

theorem filterMap_snd_ids (l : List (JVal × JVal)) (P : JVal × JVal → Bool) :
    (∀ p ∈ l, elemIdKey p.2 = some p.1) →
    ((l.filter P).map Prod.snd).filterMap elemIdKey = (l.filter P).map Prod.fst := by
  induction l with
  | nil => intro _; rfl
  | cons p rest ih =>
    intro h
    have hp := h p (by simp)
    have hrest := ih fun q hq => h q (by simp [hq])
    by_cases hP : P p = true <;>
      simp [List.filter_cons, hP, List.filterMap_cons, hp, hrest]

theorem map_fst_filter_key (l : List (JVal × JVal)) (Q : JVal → Bool) :
    (l.filter (fun kv => Q kv.1)).map Prod.fst = (l.map Prod.fst).filter Q := by
  induction l with
  | nil => rfl
  | cons p rest ih =>
    by_cases hq : Q p.1 = true <;> simp [List.filter_cons, hq, ih]

theorem map_fst_filter_isNone (l L2 : List (JVal × JVal)) :
    (l.filter (fun kv => (jget L2 kv.1).isNone)).map Prod.fst =
      (l.map Prod.fst).filter (fun i => (jget L2 i).isNone) :=
  map_fst_filter_key l (fun i => (jget L2 i).isNone)

/-- The multiset bookkeeping at the heart of the claim: removing the
ids absent from B and adding the ids absent from A turns A into B — when
both are duplicate-free. -/
theorem multiset_update (A B : List JVal) (P Q : JVal → Bool)
    (hP : ∀ i, P i = true ↔ i ∉ B) (hQ : ∀ i, Q i = true ↔ i ∉ A)
    (hA : A.Nodup) (hB : B.Nodup) :
    (↑A : Multiset JVal) - ↑(A.filter P) + ↑(B.filter Q) = ↑B := by
  ext x
  rw [Multiset.count_add, Multiset.count_sub]
  simp only [Multiset.coe_count]
  by_cases hxA : x ∈ A <;> by_cases hxB : x ∈ B
  · have hfa : (A.filter P).count x = 0 :=
      List.count_eq_zero_of_not_mem fun hm => (hP x).mp (List.of_mem_filter hm) hxB
    have hfb : (B.filter Q).count x = 0 :=
      List.count_eq_zero_of_not_mem fun hm => (hQ x).mp (List.of_mem_filter hm) hxA
    rw [hfa, hfb, List.count_eq_one_of_mem hA hxA, List.count_eq_one_of_mem hB hxB]
  · have hPx : P x = true := (hP x).mpr hxB
    have hfa : (A.filter P).count x = A.count x := List.count_filter hPx
    have hfb : (B.filter Q).count x = 0 :=
      List.count_eq_zero_of_not_mem fun hm => hxB (List.mem_of_mem_filter hm)
    rw [hfa, hfb, List.count_eq_zero_of_not_mem hxB]
    omega
  · have hQx : Q x = true := (hQ x).mpr hxA
    have hfa : (A.filter P).count x = 0 :=
      List.count_eq_zero_of_not_mem fun hm => hxA (List.mem_of_mem_filter hm)
    have hfb : (B.filter Q).count x = B.count x := List.count_filter hQx
    rw [hfa, hfb, List.count_eq_zero_of_not_mem hxA, List.count_eq_one_of_mem hB hxB]
  · have hfa : (A.filter P).count x = 0 :=
      List.count_eq_zero_of_not_mem fun hm => hxA (List.mem_of_mem_filter hm)
    have hfb : (B.filter Q).count x = 0 :=
      List.count_eq_zero_of_not_mem fun hm => hxB (List.mem_of_mem_filter hm)
    rw [hfa, hfb, List.count_eq_zero_of_not_mem hxA, List.count_eq_zero_of_not_mem hxB]

theorem calculateDiff_removed (fs ts : DesignState) :
    (calculateDiff fs ts).removed =
      ((buildIdLookup (jElements fs.wireframe_json)).filter
        (fun kv => (jget (buildIdLookup (jElements ts.wireframe_json)) kv.1).isNone)).map
        (fun kv => kv.2) := rfl

theorem calculateDiff_added (fs ts : DesignState) :
    (calculateDiff fs ts).added =
      ((buildIdLookup (jElements ts.wireframe_json)).filter
        (fun kv => (jget (buildIdLookup (jElements fs.wireframe_json)) kv.1).isNone)).map
        (fun kv => kv.2) := rfl

theorem calculateDiff_modified (fs ts : DesignState) :
    (calculateDiff fs ts).modified =
      (buildIdLookup (jElements fs.wireframe_json)).filterMap (fun kv =>
        match jget (buildIdLookup (jElements ts.wireframe_json)) kv.1 with
        | none => none
        | some toElem => if pyEqJ kv.2 toElem then none else some (kv.1, kv.2, toElem)) := rfl

/-- C8 (counterexample): two elements of version a share the id `"e"`;
the dict keyed by id collapses them, the diff reports no changes, and the
multiset equation of the claim fails (`{e, e}` versus `{e}`). -/
theorem C8_counterexample : ¬ diffIdsConsistent exFromSt exToSt := by
  decide

/-- C8 (amended): for stored versions `a < b` **whose elements carry
pairwise-distinct truthy ids within each version**, the diff of
`get_version_diff(a, b)` is self-consistent: a's id multiset minus the
removed ids plus the added ids equals b's id multiset, every added /
removed element carries an id, and every modified entry pairs two elements
carrying the entry's id.  (Duplicate ids collapse in the id-keyed dicts,
so without distinctness the multiset equation fails.) -/
theorem C8_diff_consistency (st : Store) (a b : Nat) (fs ts : DesignState)
    (hab : a < b)
    (hfa : getDesignState st (some a) = some fs)
    (htb : getDesignState st (some b) = some ts)
    (hA : ((jElements fs.wireframe_json).filterMap elemIdKey).Nodup)
    (hB : ((jElements ts.wireframe_json).filterMap elemIdKey).Nodup) :
    getVersionDiff st a b = some (calculateDiff fs ts) ∧
    diffIdsConsistent fs ts ∧
    (∀ e ∈ (calculateDiff fs ts).added, (elemIdKey e).isSome) ∧
    (∀ e ∈ (calculateDiff fs ts).removed, (elemIdKey e).isSome) ∧
    (∀ mo ∈ (calculateDiff fs ts).modified,
      elemIdKey mo.2.1 = some mo.1 ∧ elemIdKey mo.2.2 = some mo.1) := by
  have hLf := buildIdLookup_eq (jElements fs.wireframe_json) hA
  have hLt := buildIdLookup_eq (jElements ts.wireframe_json) hB
  have hpairsF := buildIdLookup_pairs (jElements fs.wireframe_json)
  have hpairsT := buildIdLookup_pairs (jElements ts.wireframe_json)
  have hfstF : (buildIdLookup (jElements fs.wireframe_json)).map Prod.fst =
      (jElements fs.wireframe_json).filterMap elemIdKey := by
    rw [hLf, idPairs_map_fst]
  have hfstT : (buildIdLookup (jElements ts.wireframe_json)).map Prod.fst =
      (jElements ts.wireframe_json).filterMap elemIdKey := by
    rw [hLt, idPairs_map_fst]
  refine ⟨?_, ?_, ?_, ?_, ?_⟩
  · simp [getVersionDiff, hfa, htb]
  · unfold diffIdsConsistent idMultiset
    simp only
    have hrem : (calculateDiff fs ts).removed.filterMap elemIdKey =
        ((jElements fs.wireframe_json).filterMap elemIdKey).filter
          (fun i => (jget (buildIdLookup (jElements ts.wireframe_json)) i).isNone) := by
      rw [calculateDiff_removed, filterMap_snd_ids _ _ hpairsF, map_fst_filter_isNone, hfstF]
    have hadd : (calculateDiff fs ts).added.filterMap elemIdKey =
        ((jElements ts.wireframe_json).filterMap elemIdKey).filter
          (fun i => (jget (buildIdLookup (jElements fs.wireframe_json)) i).isNone) := by
      rw [calculateDiff_added, filterMap_snd_ids _ _ hpairsT, map_fst_filter_isNone, hfstT]
    rw [hrem, hadd]
    apply multiset_update
    · intro i
      rw [Option.isNone_iff_eq_none, jget_none_iff, hfstT]
    · intro i
      rw [Option.isNone_iff_eq_none, jget_none_iff, hfstF]
    · exact hA
    · exact hB
  · intro e he
    rw [calculateDiff_added] at he
    obtain ⟨kv, hkv, hsnd⟩ := List.mem_map.mp he
    rw [← hsnd, hpairsT kv (List.mem_of_mem_filter hkv)]
    rfl
  · intro e he
    rw [calculateDiff_removed] at he
    obtain ⟨kv, hkv, hsnd⟩ := List.mem_map.mp he
    rw [← hsnd, hpairsF kv (List.mem_of_mem_filter hkv)]
    rfl
  · intro mo hmo
    rw [calculateDiff_modified] at hmo
    obtain ⟨kv, hkv, hres⟩ := List.mem_filterMap.mp hmo
    cases hjt : jget (buildIdLookup (jElements ts.wireframe_json)) kv.1 with
    | none => rw [hjt] at hres; cases hres
    | some toElem =>
      rw [hjt] at hres
      have hres2 : (if pyEqJ kv.2 toElem = true then none
          else some (kv.1, kv.2, toElem)) = some mo := hres
      by_cases heq : pyEqJ kv.2 toElem = true
      · rw [if_pos heq] at hres2; cases hres2
      · rw [if_neg heq] at hres2
        have hmo2 : mo = (kv.1, kv.2, toElem) := (Option.some_inj.mp hres2).symm
        subst hmo2
        refine ⟨hpairsF kv hkv, ?_⟩
        exact hpairsT (kv.1, toElem) (jget_mem _ _ _ hjt)

/-- Version-a elements with distinct ids for the C8 witness. -/
def exFromOk : DesignState :=
  { wireframe_json := .obj [("elements", .arr
      [.obj [("id", .str "x"), ("type", .str "button")],
       .obj [("id", .str "y"), ("type", .str "text")]])]
    metadata := [], created_at := 0, version := 1 }

def exToOk : DesignState :=
  { wireframe_json := .obj [("elements", .arr
      [.obj [("id", .str "y"), ("type", .str "title")],
       .obj [("id", .str "z"), ("type", .str "card")]])]
    metadata := [], created_at := 1, version := 2 }

def exDiffStore : Store :=
  { meta := none, states := [(1, exFromOk), (2, exToOk)], vmeta := [], context := [] }

/-- Witness for C8 (amended) on a two-version store with distinct ids. -/
theorem C8_witness :
    1 < 2 ∧
    getDesignState exDiffStore (some 1) = some exFromOk ∧
    getDesignState exDiffStore (some 2) = some exToOk ∧
    ((jElements exFromOk.wireframe_json).filterMap elemIdKey).Nodup ∧
    ((jElements exToOk.wireframe_json).filterMap elemIdKey).Nodup ∧
    (getVersionDiff exDiffStore 1 2 = some (calculateDiff exFromOk exToOk) ∧
     diffIdsConsistent exFromOk exToOk ∧
     (∀ e ∈ (calculateDiff exFromOk exToOk).added, (elemIdKey e).isSome) ∧
     (∀ e ∈ (calculateDiff exFromOk exToOk).removed, (elemIdKey e).isSome) ∧
     (∀ mo ∈ (calculateDiff exFromOk exToOk).modified,
       elemIdKey mo.2.1 = some mo.1 ∧ elemIdKey mo.2.2 = some mo.1)) :=
  ⟨by decide, rfl, rfl, by decide, by decide,
   C8_diff_consistency exDiffStore 1 2 exFromOk exToOk (by decide) rfl rfl
     (by decide) (by decide)⟩

/-! ## Claim C1 -/

set_option maxRecDepth 10000 in
/-- C1: the invariant FAILS — code bug.  49 successful `apply_edit` calls
on a fresh session keep `current_version` equal to the maximum stored
version (50), as the claim predicts; but the 50th edit pushes the version
count past `max_versions_per_session` = 50 and triggers compression, and
`compress_old_versions` re-stores each compacted old version through
`store_design_state`, which unconditionally overwrites the session's
`current_version` with the version number it stores.  The oldest version
is processed last, so after 50 edits the stored versions are exactly
1..51 while `current_version` is 1 — not 51 as the claim requires. -/
theorem C1_version_monotonicity_fails :
    currentVersionOf (applyEditN 49 exStoreV1) = 50 ∧
    getAllVersions (applyEditN 50 exStoreV1) = List.range' 1 51 ∧
    currentVersionOf (applyEditN 50 exStoreV1) = 1 := by
  exact ⟨by decide, by decide, by decide⟩
